import Mathlib

/-!
# gorush: the Android (FCM) provider sender

A shallow embedding of `gorush/notification_fcm.go`:

* `getAndroidNotification`, `getAndroidNotifications` build the provider messages;
* `InitFCMClient` obtains the lazily created, process-wide client;
* `PushToAndroid` validates, then runs the `Retry:` loop (`sendRound` is one
  pass from the label to the `goto`, `retryLoop` the jumps).

Everything outside the file (the validation collaborator, the firebase SDK, the
loggers, the statistics store) is an explicit parameter (`Env`) or an explicit
piece of state (`World`).  Go `int` values are `Int`: the only arithmetic the file
does on them is `retryCount++`, guarded by `retryCount < maxRetry`, so it cannot
wrap around.  The time-to-live, an `int64` product, is computed modulo `2 ^ 64`.
-/

namespace Gorush

/-! ## Go values, maps -/

/-- A Go `interface{}` value as the code can observe it: `req.Sound.(string)` asks
whether it is a string, `fmt.Sprintf("%v", v)` renders it.  `other` carries the
rendering of any value of another dynamic type (floats, slices, maps, ...). -/
inductive Value where
  | null
  | bool (b : Bool)
  | int (i : Int)
  | str (s : String)
  | other (rendering : String)
deriving DecidableEq, Repr

/-- The rendering `fmt.Sprintf("%v", v)`. -/
def Sprintf_v : Value → String
  | .null => "<nil>"
  | .bool b => if b then "true" else "false"
  | .int i => toString i
  | .str s => s
  | .other r => r

/-- A Go `map[string]α`: finitely many entries, no key twice. -/
structure GoMap (α : Type) where
  entries : List (String × α)
  nodup : (entries.map Prod.fst).Nodup

namespace GoMap

/-- The map `make(map[string]α)`. -/
def empty {α : Type} : GoMap α := ⟨[], List.nodup_nil⟩

/-- The value `m[k]`, when the key is present. -/
def get {α : Type} (m : GoMap α) (k : String) : Option α :=
  m.entries.lookup k

/-- The builtin `len(m)`. -/
def len {α : Type} (m : GoMap α) : Nat := m.entries.length

/-- The assignment `m[k] = v`: an entry for `k` is replaced. -/
def set {α : Type} (m : GoMap α) (k : String) (v : α) : GoMap α :=
  ⟨(k, v) :: m.entries.filter (fun e => e.1 != k), by
    have hsub : ((m.entries.filter (fun e => e.1 != k)).map Prod.fst).Sublist
        (m.entries.map Prod.fst) := (List.filter_sublist m.entries).map Prod.fst
    rw [List.map_cons, List.nodup_cons]
    refine ⟨?_, hsub.nodup m.nodup⟩
    intro hmem
    rcases List.mem_map.1 hmem with ⟨e, he, hk⟩
    have := (List.mem_filter.1 he).2
    simp [hk] at this⟩

end GoMap

instance {α : Type} [DecidableEq α] : DecidableEq (GoMap α) := fun a b =>
  decidable_of_iff (a.entries = b.entries) (by cases a; cases b; simp)

/-- The two's-complement value of an integer stored in a Go `int64`. -/
def wrapInt64 (i : Int) : Int := (i + 2 ^ 63) % 2 ^ 64 - 2 ^ 63

/-! ## The request and the provider message -/

/-- The Android fields of the request read through `req.Notification`. -/
structure RequestNotification where
  Icon : String := ""
  Color : String := ""
  ClickAction : String := ""
  ChannelID : String := ""
  Tag : String := ""
  TitleLocKey : String := ""
  TitleLocArgs : String := ""
  BodyLocKey : String := ""
  BodyLocArgs : String := ""
deriving DecidableEq, Repr

/-- The fields of `PushNotification` that `notification_fcm.go` reads.
`TimeToLive` is a `*uint`, `Retry` an `int`, `Sound` and the values of `Data`
are `interface{}`. -/
structure PushNotification where
  Tokens : List String := []
  Topic : String := ""
  Condition : String := ""
  Title : String := ""
  Message : String := ""
  Sound : Value := .null
  Notification : RequestNotification := {}
  CollapseKey : String := ""
  Priority : String := ""
  RestrictedPackageName : String := ""
  TimeToLive : Option Nat := none
  Data : GoMap Value := GoMap.empty
  Retry : Int := 0
deriving DecidableEq

/-- The struct `fcm.Notification`. -/
structure FcmNotification where
  Title : String := ""
  Body : String := ""
deriving DecidableEq, Repr

/-- The struct `fcm.AndroidNotification`. -/
structure AndroidNotification where
  Title : String := ""
  Body : String := ""
  Icon : String := ""
  Color : String := ""
  Sound : String := ""
  Tag : String := ""
  ClickAction : String := ""
  BodyLocKey : String := ""
  BodyLocArgs : List String := []
  TitleLocKey : String := ""
  TitleLocArgs : List String := []
  ChannelID : String := ""
deriving DecidableEq, Repr

/-- The struct `fcm.AndroidConfig`; `TTL` is a `*time.Duration` (nanoseconds in an `int64`). -/
structure AndroidConfig where
  CollapseKey : String := ""
  Priority : String := ""
  TTL : Option Int := none
  RestrictedPackageName : String := ""
  Notification : AndroidNotification := {}
deriving DecidableEq, Repr

/-- The struct `fcm.Message`. -/
structure Message where
  Data : GoMap String := GoMap.empty
  Notification : FcmNotification := {}
  Android : AndroidConfig := {}
  Token : String := ""
  Topic : String := ""
  Condition : String := ""
deriving DecidableEq

/-- Nanoseconds in `time.Hour`. -/
def timeHour : Int := 3600000000000

/-- The loop `for k, v := range req.Data { data[k] = fmt.Sprintf("%v", v) }`. -/
def copyData (src : List (String × Value)) (data : GoMap String) : GoMap String :=
  src.foldl (fun acc kv => acc.set kv.1 (Sprintf_v kv.2)) data

/-- The function `getAndroidNotification`. -/
def getAndroidNotification (req : PushNotification) : Message :=
  let notif : FcmNotification := { Title := req.Title }
  let androidNotification : AndroidNotification :=
    { Title := req.Title
      Icon := req.Notification.Icon
      Color := req.Notification.Color
      ClickAction := req.Notification.ClickAction
      ChannelID := req.Notification.ChannelID
      Tag := req.Notification.Tag }
  let androidNotification : AndroidNotification :=
    match req.Sound with
    | .str v => if 0 < v.length then { androidNotification with Sound := v } else androidNotification
    | _ => androidNotification
  let androidNotification : AndroidNotification :=
    if req.Notification.TitleLocKey ≠ "" then
      { androidNotification with
        TitleLocKey := req.Notification.TitleLocKey
        TitleLocArgs := [req.Notification.TitleLocArgs] }
    else androidNotification
  let androidNotification : AndroidNotification :=
    if req.Notification.BodyLocKey ≠ "" then
      { androidNotification with
        BodyLocKey := req.Notification.BodyLocKey
        BodyLocArgs := [req.Notification.BodyLocArgs] }
    else androidNotification
  let androidNotification : AndroidNotification :=
    if 0 < req.Message.length then { androidNotification with Body := req.Message }
    else androidNotification
  let notif : FcmNotification :=
    if 0 < req.Message.length then { notif with Body := req.Message } else notif
  let androidConfig : AndroidConfig :=
    { CollapseKey := req.CollapseKey
      Priority := req.Priority
      RestrictedPackageName := req.RestrictedPackageName
      Notification := androidNotification }
  let androidConfig : AndroidConfig :=
    match req.TimeToLive with
    | some ttl => { androidConfig with TTL := some (wrapInt64 (wrapInt64 ttl * timeHour)) }
    | none => androidConfig
  let data : GoMap String := GoMap.empty
  let data := if 0 < req.Data.len then copyData req.Data.entries data else data
  let data := data.set "title" req.Title
  let data := data.set "body" req.Message
  let notif : FcmNotification :=
    if 0 < req.Title.length then { notif with Title := req.Title } else notif
  { Android := androidConfig, Notification := notif, Data := data }

/-- The loop `for _, token := range req.Tokens` of `getAndroidNotifications`. -/
def appendTokenMessages (req : PushNotification) (tokens : List String)
    (res : List Message) : List Message :=
  tokens.foldl (fun acc token => acc ++ [{ getAndroidNotification req with Token := token }]) res

/-- The function `getAndroidNotifications`. -/
def getAndroidNotifications (req : PushNotification) : List Message :=
  let res : List Message := []
  if 0 < req.Topic.length then
    res ++ [{ getAndroidNotification req with Topic := req.Topic }]
  else if 0 < req.Condition.length then
    res ++ [{ getAndroidNotification req with Condition := req.Condition }]
  else
    appendTokenMessages req req.Tokens res

/-! ## Collaborators: configuration, provider, logs, statistics -/

/-- The section `PushConf.Core`, as far as it is read here. -/
structure SectionCore where
  Sync : Bool := false
  FeedbackURL : String := ""
deriving DecidableEq, Repr

/-- The section `PushConf.Android`. -/
structure SectionAndroid where
  MaxRetry : Int := 0
deriving DecidableEq, Repr

/-- The section `PushConf.Firebase`. -/
structure SectionFirebase where
  CredentialsFile : String := ""
deriving DecidableEq, Repr

/-- The configuration `PushConf`. -/
structure ConfYaml where
  Core : SectionCore := {}
  Android : SectionAndroid := {}
  Firebase : SectionFirebase := {}
deriving DecidableEq, Repr

/-- A handle on the provider client `*fcm.Client`. -/
structure Client where
  handle : Nat
deriving DecidableEq, Repr

/-- The struct `fcm.SendResponse`; the code reads `Error` only. -/
structure SendResponse where
  Success : Bool := true
  MessageID : String := ""
  Error : Option String := none
deriving DecidableEq, Repr

/-- The struct `fcm.BatchResponse`. -/
structure BatchResponse where
  SuccessCount : Int
  FailureCount : Int
  Responses : List SendResponse
deriving DecidableEq, Repr

/-- What a provider call gives back: a batch-level error or a batch response. -/
inductive Reply where
  | error (err : String)
  | ok (res : BatchResponse)
deriving DecidableEq, Repr

/-- Everything `PushToAndroid` consults and does not own.  `CheckMessage` is the
validation collaborator (`none` is Go's `nil` error).  `NewMessagingClient` is the
outcome of `firebase.NewApp` followed by `app.Messaging`.  `SendAll r msgs` is the
provider's answer to the batch `msgs` submitted in round `r` of this send: a black
box that may answer differently on every round. -/
structure Env where
  PushConf : ConfYaml
  CheckMessage : PushNotification → Option String
  NewMessagingClient : Except String Client
  SendAll : Nat → List Message → Reply

/-- The constants `SucceededPush` and `FailedPush`. -/
inductive PushStatus where
  | SucceededPush
  | FailedPush
deriving DecidableEq, Repr

/-- The record built by `getLogPushEntry(status, to, req, err)`; the request
snapshot it also holds is left out. -/
structure LogPushEntry where
  Status : PushStatus
  To : String
  Error : Option String
deriving DecidableEq, Repr

/-- One observable effect on the log collaborators, in program order. -/
inductive Event where
  | accessDebug (msg : String)
  | errorError (msg : String)
  | logPush (entry : LogPushEntry)
  | addLog (entry : LogPushEntry)
  | dispatchFeedback (entry : LogPushEntry) (url : String)
deriving DecidableEq, Repr

/-- Modelled from the spec: the Stats Store `StatStorage` is an interface whose
implementations are not in this file; the spec gives `AddSuccess(platform, n)` and
`AddFailure(platform, n)` as increments of one counter per platform and outcome.
These are the two Android counters. -/
structure StatStore where
  AndroidSuccess : Int := 0
  AndroidError : Int := 0
deriving DecidableEq, Repr

/-- One invocation of `client.SendAll`: the round, the batch, the answer. -/
structure ProviderCall where
  round : Nat
  batch : List Message
  reply : Reply
deriving DecidableEq

/-- The state around one `PushToAndroid`: the global `FCMClient`, the statistics,
the effects on the logs so far, and two histories kept for stating properties:
the provider calls made and the number of passes through the label `Retry`. -/
structure World where
  FCMClient : Option Client := none
  StatStorage : StatStore := {}
  log : List Event := []
  calls : List ProviderCall := []
  rounds : Nat := 0
deriving DecidableEq

namespace World

/-- The call `LogAccess.Debug(msg)`. -/
def Debug (w : World) (msg : String) : World :=
  { w with log := w.log ++ [Event.accessDebug msg] }

/-- The call `LogError.Error(msg)`. -/
def Error (w : World) (msg : String) : World :=
  { w with log := w.log ++ [Event.errorError msg] }

/-- The call `LogPush(status, to, req, err)`. -/
def LogPush (w : World) (status : PushStatus) (to_ : String) (err : Option String) : World :=
  { w with log := w.log ++ [Event.logPush ⟨status, to_, err⟩] }

/-- The call `req.AddLog(getLogPushEntry(status, to, req, err))`. -/
def AddLog (w : World) (status : PushStatus) (to_ : String) (err : Option String) : World :=
  { w with log := w.log ++ [Event.addLog ⟨status, to_, err⟩] }

/-- The detached `go func` that calls `DispatchFeedback(log, url)`. -/
def Feedback (w : World) (status : PushStatus) (to_ : String) (err : Option String)
    (url : String) : World :=
  { w with log := w.log ++ [Event.dispatchFeedback ⟨status, to_, err⟩ url] }

/-- The call `StatStorage.AddAndroidSuccess(n)`. -/
def AddAndroidSuccess (w : World) (n : Int) : World :=
  { w with StatStorage := { w.StatStorage with AndroidSuccess := w.StatStorage.AndroidSuccess + n } }

/-- The call `StatStorage.AddAndroidError(n)`. -/
def AddAndroidError (w : World) (n : Int) : World :=
  { w with StatStorage := { w.StatStorage with AndroidError := w.StatStorage.AndroidError + n } }

/-- The number of entries written with `LogError.Error`. -/
def errorEntries (w : World) : Nat :=
  w.log.countP (fun e => match e with
    | Event.errorError _ => true
    | _ => false)

end World

/-- Modelled from the spec: the method `IsTopic` of the request is declared outside
this file; the spec calls its positive case "the topic/condition case", the request
addressed by a topic or by a condition. -/
def IsTopic (req : PushNotification) : Bool :=
  req.Topic != "" || req.Condition != ""

/-! ## The sender -/

/-- The function `InitFCMClient`, on the global `FCMClient`: the result and the new
value of the global. -/
def InitFCMClient (env : Env) (credentialsFile : String) (fcmClient : Option Client) :
    Except String Client × Option Client :=
  if credentialsFile = "" then
    (.error "Missing Credentials File", fcmClient)
  else
    match fcmClient with
    | some client => (.ok client, fcmClient)
    | none =>
      match env.NewMessagingClient with
      | .error err => (.error err, fcmClient)
      | .ok client => (.ok client, some client)

/-- The retry ceiling computed at the top of `PushToAndroid`: `maxRetry` after
`if req.Retry > 0 && req.Retry < maxRetry { maxRetry = req.Retry }`. -/
def effectiveMaxRetry (globalMaxRetry : Int) (requestRetry : Int) : Int :=
  if requestRetry > 0 && requestRetry < globalMaxRetry then requestRetry else globalMaxRetry

/-- The loop `for k, result := range res.Responses` of the per-token branch, from
index `k` on, threading `isError`, `newTokens` and the effects. -/
def tokenLoop (conf : ConfYaml) (req : PushNotification) :
    Nat → List SendResponse → Bool → List String → World → Bool × List String × World
  | _, [], isError, newTokens, w => (isError, newTokens, w)
  | k, result :: rest, isError, newTokens, w =>
    let to_ := if k < req.Tokens.length then req.Tokens.getD k "" else ""
    match result.Error with
    | some err =>
      let w := w.LogPush PushStatus.FailedPush to_ (some err)
      let w :=
        if conf.Core.Sync then w.AddLog PushStatus.FailedPush to_ (some err)
        else if conf.Core.FeedbackURL ≠ "" then
          w.Feedback PushStatus.FailedPush to_ (some err) conf.Core.FeedbackURL
        else w
      tokenLoop conf req (k + 1) rest true (newTokens ++ [to_]) w
    | none =>
      tokenLoop conf req (k + 1) rest isError newTokens (w.LogPush PushStatus.SucceededPush to_ none)

/-- How one pass from the label `Retry` to the test before `goto Retry` ends. -/
inductive RoundResult where
  | initFailed (w : World)
  | sendFailed (w : World)
  | panicked (w : World)
  | folded (isError : Bool) (newTokens : List String) (w : World)
deriving DecidableEq

/-- The state in which a pass ended. -/
def RoundResult.world : RoundResult → World
  | .initFailed w => w
  | .sendFailed w => w
  | .panicked w => w
  | .folded _ _ w => w

/-- The part of the body after the statistics update: the topic/condition branch
or the per-token branch.  `panicked` is the index-out-of-range of
`res.Responses[0]` on a batch response without responses. -/
def foldResponses (env : Env) (req : PushNotification) (res : BatchResponse) (w : World) :
    RoundResult :=
  if IsTopic req then
    let to_ := if req.Topic ≠ "" then req.Topic else req.Condition
    let w := w.Debug ("Send Topic Message: " ++ to_)
    match res.Responses with
    | [] => .panicked w
    | result :: _ =>
      match result.Error with
      | some err =>
        let w := w.LogPush PushStatus.FailedPush to_ (some err)
        let w := if env.PushConf.Core.Sync then w.AddLog PushStatus.FailedPush to_ (some err) else w
        .folded true [] w
      | none => .folded false [] (w.LogPush PushStatus.SucceededPush to_ none)
  else
    match tokenLoop env.PushConf req 0 res.Responses false [] w with
    | (isError, newTokens, w) => .folded isError newTokens w

/-- One pass through the body of `PushToAndroid` below the label `Retry`, in round
`retryCount`, up to the test `isError && retryCount < maxRetry`. -/
def sendRound (env : Env) (retryCount : Nat) (req : PushNotification) (w : World) :
    RoundResult :=
  let w := { w with rounds := w.rounds + 1 }
  let notifications := getAndroidNotifications req
  match InitFCMClient env env.PushConf.Firebase.CredentialsFile w.FCMClient with
  | (.error err, fcmClient) =>
    .initFailed ({ w with FCMClient := fcmClient }.Error ("FCM server error: " ++ err))
  | (.ok _, fcmClient) =>
    let w := { w with FCMClient := fcmClient }
    let reply := env.SendAll retryCount notifications
    let w := { w with calls := w.calls ++ [ProviderCall.mk retryCount notifications reply] }
    match reply with
    | .error err => .sendFailed (w.Error ("FCM server send message error: " ++ err))
    | .ok res =>
      let w := w.Debug ("Android Success count: " ++ toString res.SuccessCount ++
        ", Failure count: " ++ toString res.FailureCount)
      let w := w.AddAndroidSuccess res.SuccessCount
      let w := w.AddAndroidError res.FailureCount
      foldResponses env req res w

/-- Which `return` of `PushToAndroid` was taken (or the panic). -/
inductive Exit where
  | invalid
  | initFailed
  | sendFailed
  | completed (isError : Bool)
  | panicked
deriving DecidableEq, Repr

/-- The boolean `PushToAndroid` returns: the three early exits are `return false`,
the last one is `return isError`. -/
def Exit.result : Exit → Option Bool
  | .invalid => some false
  | .initFailed => some false
  | .sendFailed => some false
  | .completed isError => some isError
  | .panicked => none

/-- The label `Retry` and the `goto`: rounds are run until one exits.  Each jump
costs one unit of `fuel`; `none` is running out of it. -/
def retryLoop (env : Env) (maxRetry : Int) :
    Nat → Nat → PushNotification → World → Option (Exit × World)
  | 0, _, _, _ => none
  | fuel + 1, retryCount, req, w =>
    match sendRound env retryCount req w with
    | .initFailed w => some (.initFailed, w)
    | .sendFailed w => some (.sendFailed, w)
    | .panicked w => some (.panicked, w)
    | .folded isError newTokens w =>
      if isError && (retryCount : Int) < maxRetry then
        retryLoop env maxRetry fuel (retryCount + 1) { req with Tokens := newTokens } w
      else
        some (.completed isError, w)

/-- The function `PushToAndroid`.  The loop is given `maxRetry + 1` rounds of fuel,
which `PushToAndroid_returns` shows to be enough. -/
def PushToAndroid (env : Env) (req : PushNotification) (w : World) : Option (Exit × World) :=
  let w := w.Debug "Start push notification for Android"
  let maxRetry := effectiveMaxRetry env.PushConf.Android.MaxRetry req.Retry
  match env.CheckMessage req with
  | some err => some (.invalid, w.Error ("request error: " ++ err))
  | none => retryLoop env maxRetry (maxRetry.toNat + 1) 0 req w

/-! ## Vocabulary of the properties -/

/-- The outcome is a failure: `result.Error != nil`. -/
def SendResponse.failed (r : SendResponse) : Bool := r.Error.isSome

/-- The number of failed outcomes among the responses of a round. -/
def failureCount (responses : List SendResponse) : Nat :=
  responses.countP SendResponse.failed

/-- The number of successful outcomes among the responses of a round. -/
def successCount (responses : List SendResponse) : Nat :=
  responses.countP (fun r => !r.failed)

/-- In the words of the spec: the tokens whose positional outcome (outcome `i` for
token `i`) failed, in order. -/
def failedTokens (tokens : List String) (responses : List SendResponse) : List String :=
  ((tokens.zip responses).filter (fun p => p.2.failed)).map Prod.fst

/-- A provider answer that has one outcome per message of the batch and whose
counts are those of its outcomes. -/
def WellFormedReply (msgs : List Message) (res : BatchResponse) : Prop :=
  res.Responses.length = msgs.length ∧
  res.SuccessCount = successCount res.Responses ∧
  res.FailureCount = failureCount res.Responses

/-- The provider client can be obtained: the credentials file is configured, and
the client exists already or its creation succeeds. -/
def ClientAvailable (env : Env) (w : World) : Prop :=
  env.PushConf.Firebase.CredentialsFile ≠ "" ∧
  (w.FCMClient.isSome = true ∨ ∃ client, env.NewMessagingClient = .ok client)

/-- A request addressed by its tokens: neither topic nor condition. -/
def TokenRequest (req : PushNotification) : Prop :=
  req.Topic = "" ∧ req.Condition = ""

/-- The state `w'` differs from `w` at most by entries of the logs other than
`LogError.Error` entries. -/
def World.Frame (w w' : World) : Prop :=
  w'.StatStorage = w.StatStorage ∧ w'.calls = w.calls ∧ w'.rounds = w.rounds ∧
  w'.FCMClient = w.FCMClient ∧ w'.errorEntries = w.errorEntries

/-- What a round that got an answer `res` from the provider did to the state:
one more call in the history, the counts of `res` added to the statistics, no
entry written with `LogError.Error`. -/
def RoundFolded (env : Env) (retryCount : Nat) (req : PushNotification) (w : World)
    (res : BatchResponse) (w' : World) : Prop :=
  env.SendAll retryCount (getAndroidNotifications req) = .ok res ∧
  ClientAvailable env w ∧ w'.FCMClient.isSome = true ∧
  w'.StatStorage.AndroidSuccess = w.StatStorage.AndroidSuccess + res.SuccessCount ∧
  w'.StatStorage.AndroidError = w.StatStorage.AndroidError + res.FailureCount ∧
  w'.calls = w.calls ++ [ProviderCall.mk retryCount (getAndroidNotifications req) (.ok res)] ∧
  w'.rounds = w.rounds + 1 ∧ w'.errorEntries = w.errorEntries

/-- The rounds of the loop entered in round `rc` with request `req` in state `w`:
`RoundBegins env maxRetry rc req w rc' req' w'` says that this loop begins round
`rc'` with request `req'` in state `w'`. -/
inductive RoundBegins (env : Env) (maxRetry : Int) :
    Nat → PushNotification → World → Nat → PushNotification → World → Prop where
  | first (rc : Nat) (req : PushNotification) (w : World) :
      RoundBegins env maxRetry rc req w rc req w
  | next {rc : Nat} {req : PushNotification} {w : World} {newTokens : List String}
      {w1 : World} {rc' : Nat} {req' : PushNotification} {w' : World} :
      sendRound env rc req w = .folded true newTokens w1 →
      (rc : Int) < maxRetry →
      RoundBegins env maxRetry (rc + 1) { req with Tokens := newTokens } w1 rc' req' w' →
      RoundBegins env maxRetry rc req w rc' req' w'

/-- The provider calls `calls` form a retry chain from `tokens`: the first batch is
addressed to `tokens`, and every later batch to the tokens of the batch before it
whose positional outcome failed, of which there is at least one. -/
def RetryChain : List String → List ProviderCall → Prop
  | _, [] => True
  | tokens, c :: rest =>
    c.batch.map (fun m => m.Token) = tokens ∧
    (rest = [] ∨ ∃ res, c.reply = .ok res ∧ failedTokens tokens res.Responses ≠ [] ∧
      RetryChain (failedTokens tokens res.Responses) rest)

/-- The state in which `PushToAndroid` ends (the initial one if it does not). -/
def finalWorld (env : Env) (req : PushNotification) (w : World) : World :=
  match PushToAndroid env req w with
  | some (_, w') => w'
  | none => w

/-! ## Scenarios -/

/-- A successful outcome. -/
def okResponse : SendResponse := {}

/-- A failed outcome with the provider error `err`. -/
def failedResponse (err : String) : SendResponse := { Success := false, Error := some err }

/-- A request to the tokens `a`, `b`, `c`. -/
def reqABC : PushNotification := { Tokens := ["a", "b", "c"], Title := "Hello", Message := "hi" }

/-- A configuration with credentials and a global maximum of two retries. -/
def confTwoRetries : ConfYaml :=
  { Android := { MaxRetry := 2 }, Firebase := { CredentialsFile := "key.json" } }

/-- The answer of a provider that gives each message of the batch the outcome
`outcome`, with the counts of these outcomes. -/
def answer (outcome : Message → SendResponse) (msgs : List Message) : BatchResponse :=
  ⟨successCount (msgs.map outcome), failureCount (msgs.map outcome), msgs.map outcome⟩

/-- The provider of the spec's scenario: on round 0 the token `b` fails and the
others succeed, on later rounds every token succeeds. -/
def envABC : Env where
  PushConf := confTwoRetries
  CheckMessage := fun _ => none
  NewMessagingClient := .ok ⟨1⟩
  SendAll := fun r msgs =>
    if r = 0 then
      .ok (answer (fun m => if m.Token = "b" then failedResponse "unregistered" else okResponse) msgs)
    else .ok (answer (fun _ => okResponse) msgs)

/-- The answer of `envABC` on round 0 of the send of `reqABC`. -/
def replyABC0 : BatchResponse :=
  answer (fun m => if m.Token = "b" then failedResponse "unregistered" else okResponse)
    (getAndroidNotifications reqABC)

/-- The answer of `envABC` on round 1 of the send of `reqABC`. -/
def replyABC1 : BatchResponse :=
  answer (fun _ => okResponse)
    (getAndroidNotifications { reqABC with Tokens := failedTokens reqABC.Tokens replyABC0.Responses })

/-- A provider on which the token `b` fails on every round and every other token
succeeds. -/
def envSteady : Env :=
  { envABC with
    SendAll := fun _ msgs =>
      .ok (answer (fun m => if m.Token = "b" then failedResponse "unregistered" else okResponse) msgs) }

/-- A request whose data payload has the key `title`. -/
def reqTitleInData : PushNotification :=
  { Tokens := ["a"], Title := "Hello", Message := "hi",
    Data := (GoMap.empty.set "title" (Value.str "promo")).set "badge" (Value.int 3) }

/-- The same provider without a credentials file: the client cannot be created. -/
def envNoCredentials : Env := { envABC with PushConf := { Android := { MaxRetry := 2 } } }

/-- A provider on which the token `b` fails on round 0 and every later batch send
fails with a batch-level error. -/
def envFlaky : Env :=
  { envABC with
    SendAll := fun r msgs =>
      if r = 0 then
        .ok (answer (fun m => if m.Token = "b" then failedResponse "unregistered" else okResponse) msgs)
      else .error "deadline exceeded" }

/-- The state in which round 0 of the send of `reqABC` on `envFlaky` ends. -/
def worldFlaky1 : World :=
  (sendRound envFlaky 0 reqABC (World.Debug {} "Start push notification for Android")).world

/-- A validation collaborator that rejects every request. -/
def envRejecting : Env := { envABC with CheckMessage := fun _ => some "no target" }

/-! ## Properties: maps and message building -/

theorem length_pos_iff (s : String) : 0 < s.length ↔ s ≠ "" := by
  rw [Nat.pos_iff_ne_zero, Ne, Ne, String.ext_iff, String.length, List.length_eq_zero]

theorem GoMap.lookup_filter_ne {α : Type} (k k0 : String) (h : k ≠ k0) (l : List (String × α)) :
    (l.filter (fun e => e.1 != k0)).lookup k = l.lookup k := by
  induction l with
  | nil => rfl
  | cons e rest ih =>
    obtain ⟨a, b⟩ := e
    by_cases hak : a = k0
    · subst hak
      have hka : (k == a) = false := by simpa using h
      simp [List.filter_cons, List.lookup_cons, hka, ih]
    · have : (a != k0) = true := by simpa using hak
      simp only [List.filter_cons, this, if_true, List.lookup_cons, ih]

theorem GoMap.get_set {α : Type} (m : GoMap α) (k0 : String) (v : α) (k : String) :
    (m.set k0 v).get k = if k = k0 then some v else m.get k := by
  unfold GoMap.get GoMap.set
  by_cases h : k = k0
  · subst h; simp [List.lookup_cons]
  · have hk : (k == k0) = false := by simpa using h
    simp only [List.lookup_cons, hk, h, if_false]
    exact GoMap.lookup_filter_ne k k0 h m.entries

theorem copyData_get (k : String) : ∀ (src : List (String × Value)) (data : GoMap String),
    (src.map Prod.fst).Nodup →
    (copyData src data).get k =
      match src.lookup k with
      | some v => some (Sprintf_v v)
      | none => data.get k := by
  intro src
  induction src with
  | nil => intro data _; rfl
  | cons e rest ih =>
    intro data hnd
    obtain ⟨a, b⟩ := e
    rw [List.map_cons, List.nodup_cons] at hnd
    have hstep : copyData ((a, b) :: rest) data = copyData rest (data.set a (Sprintf_v b)) := rfl
    rw [hstep, ih _ hnd.2]
    by_cases hka : k = a
    · subst hka
      have hnone : rest.lookup k = none := by
        rw [List.lookup_eq_none_iff]
        intro p hp
        have hne : k ≠ p.1 := fun hk => hnd.1 (List.mem_map.2 ⟨p, hp, hk.symm⟩)
        simpa using hne
      simp [hnone, List.lookup_cons, GoMap.get_set]
    · have hk : (k == a) = false := by simpa using hka
      simp only [List.lookup_cons, hk]
      cases rest.lookup k with
      | some v => rfl
      | none => simp [GoMap.get_set, hka]

theorem getAndroidNotification_Data (req : PushNotification) :
    (getAndroidNotification req).Data =
      ((if 0 < req.Data.len then copyData req.Data.entries GoMap.empty else GoMap.empty).set
        "title" req.Title).set "body" req.Message := rfl


theorem appendTokenMessages_eq (req : PushNotification) :
    ∀ (tokens : List String) (res : List Message),
      appendTokenMessages req tokens res =
        res ++ tokens.map (fun token => { getAndroidNotification req with Token := token }) := by
  intro tokens
  induction tokens with
  | nil => intro res; simp [appendTokenMessages]
  | cons t rest ih =>
    intro res
    have hstep : appendTokenMessages req (t :: rest) res =
        appendTokenMessages req rest (res ++ [{ getAndroidNotification req with Token := t }]) := rfl
    rw [hstep, ih]
    simp

theorem getAndroidNotifications_tokens (req : PushNotification) (ht : req.Topic = "")
    (hc : req.Condition = "") :
    getAndroidNotifications req =
      req.Tokens.map (fun token => { getAndroidNotification req with Token := token }) := by
  have h1 : ¬ 0 < req.Topic.length := by rw [length_pos_iff]; simp [ht]
  have h2 : ¬ 0 < req.Condition.length := by rw [length_pos_iff]; simp [hc]
  simp only [getAndroidNotifications, h1, h2, if_false, appendTokenMessages_eq, List.nil_append]

/-- C4: the retry ceiling of `PushToAndroid` is `min G r` when the request's retry
value `r` is positive and strictly below the global maximum `G`, and `G` in every
other case. -/
theorem effectiveMaxRetry_spec (G r : Int) :
    effectiveMaxRetry G r = if 0 < r ∧ r < G then min G r else G := by
  unfold effectiveMaxRetry
  by_cases h : 0 < r ∧ r < G
  · have hmin : min G r = r := min_eq_right (le_of_lt h.2)
    simp [h.1, h.2, hmin]
  · rw [if_neg h]
    have : ¬ (r > 0 ∧ r < G) := h
    simp only [Bool.and_eq_true, decide_eq_true_eq, this, if_false]

/-- C5: `getAndroidNotifications` returns exactly one message, carrying the topic and
no token, when the topic is non-empty; failing that, exactly one message, carrying
the condition and no token, when the condition is non-empty; otherwise as many
messages as tokens, the i-th message carrying the i-th token. -/
theorem getAndroidNotifications_addressing (req : PushNotification) :
    (req.Topic ≠ "" →
      ∃ m, getAndroidNotifications req = [m] ∧ m.Topic = req.Topic ∧ m.Token = "" ∧
        m = { getAndroidNotification req with Topic := req.Topic }) ∧
    (req.Topic = "" → req.Condition ≠ "" →
      ∃ m, getAndroidNotifications req = [m] ∧ m.Condition = req.Condition ∧ m.Token = "" ∧
        m = { getAndroidNotification req with Condition := req.Condition }) ∧
    (req.Topic = "" → req.Condition = "" →
      (getAndroidNotifications req).length = req.Tokens.length ∧
      (getAndroidNotifications req).map (fun m => m.Token) = req.Tokens ∧
      ∀ i (h : i < req.Tokens.length),
        ((getAndroidNotifications req).get? i).map (fun m => m.Token) = some (req.Tokens.get ⟨i, h⟩)) := by
  refine ⟨?_, ?_, ?_⟩
  · intro ht
    have h1 : 0 < req.Topic.length := (length_pos_iff _).2 ht
    exact ⟨{ getAndroidNotification req with Topic := req.Topic },
      by simp only [getAndroidNotifications, h1, if_true, List.nil_append], rfl, rfl, rfl⟩
  · intro ht hc
    have h1 : ¬ 0 < req.Topic.length := by rw [length_pos_iff]; simp [ht]
    have h2 : 0 < req.Condition.length := (length_pos_iff _).2 hc
    exact ⟨{ getAndroidNotification req with Condition := req.Condition },
      by simp only [getAndroidNotifications, h1, h2, if_true, if_false, List.nil_append],
      rfl, rfl, rfl⟩
  · intro ht hc
    rw [getAndroidNotifications_tokens req ht hc]
    refine ⟨by simp, ?_, ?_⟩
    · rw [List.map_map]
      conv_rhs => rw [← List.map_id req.Tokens]
      rfl
    · intro i h
      simp [List.getElem?_eq_getElem h]

/-- C9 (as amended): every key of the request's data payload other than `title` and
`body` reaches the message with its value rendered as a string; the keys `title`
and `body` always carry the request's title and message, whatever the payload
holds. -/
theorem getAndroidNotification_data (req : PushNotification) :
    (∀ (k : String) (v : Value), req.Data.get k = some v → k ≠ "title" → k ≠ "body" →
      (getAndroidNotification req).Data.get k = some (Sprintf_v v)) ∧
    (getAndroidNotification req).Data.get "title" = some req.Title ∧
    (getAndroidNotification req).Data.get "body" = some req.Message := by
  rw [getAndroidNotification_Data]
  refine ⟨?_, ?_, ?_⟩
  · intro k v hk ht hb
    have hpos : 0 < req.Data.len := by
      unfold GoMap.len
      rcases hl : req.Data.entries with _ | ⟨e, es⟩
      · simp [GoMap.get, hl] at hk
      · simp
    rw [GoMap.get_set, if_neg hb, GoMap.get_set, if_neg ht, if_pos hpos,
      copyData_get k _ _ req.Data.nodup]
    have hk2 : req.Data.entries.lookup k = some v := hk
    rw [hk2]
  · rw [GoMap.get_set, GoMap.get_set]; simp
  · rw [GoMap.get_set]; simp

/-! ## Properties: one round -/

@[simp] theorem World.errorEntries_append_one (w : World) (e : Event) :
    ({ w with log := w.log ++ [e] } : World).errorEntries =
      w.errorEntries + (match e with
        | Event.errorError _ => 1
        | _ => 0) := by
  unfold World.errorEntries
  rw [List.countP_append]
  cases e <;> simp

theorem failed_any_iff (responses : List SendResponse) :
    responses.any SendResponse.failed = decide (0 < failureCount responses) := by
  unfold failureCount
  induction responses with
  | nil => rfl
  | cons r rest ih =>
    cases hr : r.failed <;> simp [List.countP_cons, hr, ih]

theorem failedTokens_nil_left (responses : List SendResponse) : failedTokens [] responses = [] := by
  simp [failedTokens]

theorem failedTokens_cons (t : String) (ts : List String) (r : SendResponse)
    (rs : List SendResponse) :
    failedTokens (t :: ts) (r :: rs) =
      if r.failed then t :: failedTokens ts rs else failedTokens ts rs := by
  unfold failedTokens
  cases hr : r.failed <;> simp [List.filter_cons, hr]

theorem failedTokens_sublist : ∀ (tokens : List String) (responses : List SendResponse),
    (failedTokens tokens responses).Sublist tokens := by
  intro tokens
  induction tokens with
  | nil => intro responses; rw [failedTokens_nil_left]
  | cons t ts ih =>
    intro responses
    cases responses with
    | nil => simp [failedTokens]
    | cons r rs =>
      rw [failedTokens_cons]
      split
      · exact (ih rs).cons₂ t
      · exact (ih rs).cons t

theorem failedTokens_length : ∀ (tokens : List String) (responses : List SendResponse),
    responses.length ≤ tokens.length →
    (failedTokens tokens responses).length = failureCount responses := by
  intro tokens
  induction tokens with
  | nil =>
    intro responses h
    have : responses = [] := List.length_eq_zero.1 (Nat.le_zero.1 h)
    subst this; rfl
  | cons t ts ih =>
    intro responses h
    cases responses with
    | nil => rfl
    | cons r rs =>
      have h2 : rs.length ≤ ts.length := by simpa using h
      rw [failedTokens_cons]
      unfold failureCount
      cases hr : r.failed
      · simpa [List.countP_cons, hr, failureCount] using ih rs h2
      · simpa [List.countP_cons, hr, failureCount] using ih rs h2

theorem success_add_failure (responses : List SendResponse) :
    successCount responses + failureCount responses = responses.length := by
  unfold successCount failureCount
  induction responses with
  | nil => rfl
  | cons r rest ih =>
    cases hr : r.failed <;> simp [List.countP_cons, hr] <;> omega

theorem World.Frame.rfl (w : World) : w.Frame w := ⟨Eq.refl _, Eq.refl _, Eq.refl _, Eq.refl _, Eq.refl _⟩

theorem World.Frame.trans {w w1 w2 : World} (h1 : w.Frame w1) (h2 : w1.Frame w2) : w.Frame w2 :=
  ⟨h2.1.trans h1.1, h2.2.1.trans h1.2.1, h2.2.2.1.trans h1.2.2.1,
    h2.2.2.2.1.trans h1.2.2.2.1, h2.2.2.2.2.trans h1.2.2.2.2⟩

theorem World.frame_Debug (w : World) (msg : String) : w.Frame (w.Debug msg) :=
  ⟨Eq.refl _, Eq.refl _, Eq.refl _, Eq.refl _, by simp [World.Debug]⟩

theorem World.frame_LogPush (w : World) (s : PushStatus) (t : String) (e : Option String) :
    w.Frame (w.LogPush s t e) :=
  ⟨Eq.refl _, Eq.refl _, Eq.refl _, Eq.refl _, by simp [World.LogPush]⟩

theorem World.frame_AddLog (w : World) (s : PushStatus) (t : String) (e : Option String) :
    w.Frame (w.AddLog s t e) :=
  ⟨Eq.refl _, Eq.refl _, Eq.refl _, Eq.refl _, by simp [World.AddLog]⟩

theorem World.frame_Feedback (w : World) (s : PushStatus) (t : String) (e : Option String)
    (url : String) : w.Frame (w.Feedback s t e url) :=
  ⟨Eq.refl _, Eq.refl _, Eq.refl _, Eq.refl _, by simp [World.Feedback]⟩

theorem tokenLoop_frame (conf : ConfYaml) (req : PushNotification) :
    ∀ (responses : List SendResponse) (k : Nat) (isError : Bool) (newTokens : List String)
      (w : World), w.Frame (tokenLoop conf req k responses isError newTokens w).2.2 := by
  intro responses
  induction responses with
  | nil => intro k isError newTokens w; exact World.Frame.rfl w
  | cons r rest ih =>
    intro k isError newTokens w
    unfold tokenLoop
    cases hr : r.Error with
    | none => exact (World.frame_LogPush _ _ _ _).trans (ih _ _ _ _)
    | some err =>
      simp only []
      refine World.Frame.trans ?_ (ih _ _ _ _)
      split
      · exact (World.frame_LogPush _ _ _ _).trans (World.frame_AddLog _ _ _ _)
      · split
        · exact (World.frame_LogPush _ _ _ _).trans (World.frame_Feedback _ _ _ _ _)
        · exact World.frame_LogPush _ _ _ _

theorem tokenLoop_isError (conf : ConfYaml) (req : PushNotification) :
    ∀ (responses : List SendResponse) (k : Nat) (isError : Bool) (newTokens : List String)
      (w : World),
      (tokenLoop conf req k responses isError newTokens w).1 =
        (isError || responses.any SendResponse.failed) := by
  intro responses
  induction responses with
  | nil => intro k isError newTokens w; simp [tokenLoop]
  | cons r rest ih =>
    intro k isError newTokens w
    unfold tokenLoop
    cases hr : r.Error with
    | none => simp only []; rw [ih]; simp [SendResponse.failed, hr]
    | some err => simp only []; rw [ih]; simp [SendResponse.failed, hr]

theorem tokenLoop_newTokens (conf : ConfYaml) (req : PushNotification) :
    ∀ (responses : List SendResponse) (k : Nat) (isError : Bool) (newTokens : List String)
      (w : World), k + responses.length ≤ req.Tokens.length →
      (tokenLoop conf req k responses isError newTokens w).2.1 =
        newTokens ++ failedTokens (req.Tokens.drop k) responses := by
  intro responses
  induction responses with
  | nil => intro k isError newTokens w _; simp [tokenLoop, failedTokens]
  | cons r rest ih =>
    intro k isError newTokens w hlen
    have hk : k < req.Tokens.length := by simp at hlen; omega
    have hdrop : req.Tokens.drop k = req.Tokens[k] :: req.Tokens.drop (k + 1) :=
      List.drop_eq_getElem_cons hk
    have hget : req.Tokens.getD k "" = req.Tokens[k] := by
      simp [List.getD_eq_getElem?_getD, List.getElem?_eq_getElem hk]
    have hlen2 : (k + 1) + rest.length ≤ req.Tokens.length := by simp at hlen; omega
    unfold tokenLoop
    rw [hdrop, failedTokens_cons]
    cases hr : r.Error with
    | none => simp only []; rw [ih _ _ _ _ hlen2]; simp [SendResponse.failed, hr]
    | some err =>
      simp only []; rw [ih _ _ _ _ hlen2]; simp [SendResponse.failed, hr, hk, hget]


theorem InitFCMClient_cases (env : Env) (cred : String) (fcm : Option Client) :
    (∃ err, InitFCMClient env cred fcm = (.error err, fcm) ∧
      (cred = "" ∨ (fcm = none ∧ env.NewMessagingClient = .error err))) ∨
    (∃ c, InitFCMClient env cred fcm = (.ok c, some c) ∧ cred ≠ "" ∧
      (fcm = some c ∨ (fcm = none ∧ env.NewMessagingClient = .ok c))) := by
  unfold InitFCMClient
  by_cases hc : cred = ""
  · exact Or.inl ⟨"Missing Credentials File", by simp [hc], Or.inl hc⟩
  · cases fcm with
    | some c => exact Or.inr ⟨c, by simp [hc], hc, Or.inl rfl⟩
    | none =>
      cases hn : env.NewMessagingClient with
      | error err => exact Or.inl ⟨err, by simp [hc], Or.inr ⟨rfl, rfl⟩⟩
      | ok c => exact Or.inr ⟨c, by simp [hc], hc, Or.inr ⟨rfl, rfl⟩⟩

theorem foldResponses_summary (env : Env) (req : PushNotification) (res : BatchResponse)
    (w : World) :
    match foldResponses env req res w with
    | .initFailed _ => False
    | .sendFailed _ => False
    | .panicked w' => w.Frame w' ∧ IsTopic req = true ∧ res.Responses = []
    | .folded isError newTokens w' =>
      w.Frame w' ∧
      (IsTopic req = false →
        isError = res.Responses.any SendResponse.failed ∧
        (res.Responses.length ≤ req.Tokens.length →
          newTokens = failedTokens req.Tokens res.Responses)) ∧
      (IsTopic req = true →
        newTokens = [] ∧ ∃ r rest, res.Responses = r :: rest ∧ isError = r.failed) := by
  unfold foldResponses
  cases ht : IsTopic req with
  | true =>
    simp only [if_true]
    cases hres : res.Responses with
    | nil => exact ⟨World.frame_Debug _ _, trivial, rfl⟩
    | cons r rest =>
      simp only []
      cases hr : r.Error with
      | none =>
        simp only []
        refine ⟨(World.frame_Debug _ _).trans (World.frame_LogPush _ _ _ _), by simp, ?_⟩
        simp [SendResponse.failed, hr]
      | some err =>
        simp only []
        refine ⟨?_, by simp, ?_⟩
        · split
          · exact (World.frame_Debug _ _).trans
              ((World.frame_LogPush _ _ _ _).trans (World.frame_AddLog _ _ _ _))
          · exact (World.frame_Debug _ _).trans (World.frame_LogPush _ _ _ _)
        · simp [SendResponse.failed, hr]
  | false =>
    simp only [Bool.false_eq_true, if_false]
    refine ⟨tokenLoop_frame _ _ _ _ _ _ _, ?_, by simp⟩
    intro _
    refine ⟨by rw [tokenLoop_isError]; simp, ?_⟩
    intro hlen
    rw [tokenLoop_newTokens _ _ _ _ _ _ _ (by simpa using hlen)]
    simp


theorem clientAvailable_of_init_ok {env : Env} {w : World} {c : Client}
    (hc : env.PushConf.Firebase.CredentialsFile ≠ "")
    (h : w.FCMClient = some c ∨ (w.FCMClient = none ∧ env.NewMessagingClient = .ok c)) :
    ClientAvailable env w := by
  refine ⟨hc, ?_⟩
  rcases h with h | h
  · exact Or.inl (by simp [h])
  · exact Or.inr ⟨c, h.2⟩

theorem not_clientAvailable_of_init_error {env : Env} {w : World} {err : String}
    (h : env.PushConf.Firebase.CredentialsFile = "" ∨
      (w.FCMClient = none ∧ env.NewMessagingClient = .error err)) :
    ¬ ClientAvailable env w := by
  rintro ⟨hc, ha⟩
  rcases h with h | h
  · exact hc h
  · rcases ha with ha | ⟨c, ha⟩
    · simp [h.1] at ha
    · rw [h.2] at ha; cases ha

theorem sendRound_summary (env : Env) (rc : Nat) (req : PushNotification) (w : World) :
    match sendRound env rc req w with
    | .initFailed w' =>
      ¬ ClientAvailable env w ∧
      ∃ err, w' = ({ w with rounds := w.rounds + 1 } : World).Error ("FCM server error: " ++ err)
    | .sendFailed w' =>
      ClientAvailable env w ∧
      ∃ err client, env.SendAll rc (getAndroidNotifications req) = .error err ∧
        w' = ({ w with
                rounds := w.rounds + 1
                FCMClient := some client
                calls := w.calls ++ [ProviderCall.mk rc (getAndroidNotifications req) (.error err)] }
              : World).Error ("FCM server send message error: " ++ err)
    | .panicked w' =>
      ∃ res, RoundFolded env rc req w res w' ∧ IsTopic req = true ∧ res.Responses = []
    | .folded isError newTokens w' =>
      ∃ res, RoundFolded env rc req w res w' ∧
        (IsTopic req = false →
          isError = res.Responses.any SendResponse.failed ∧
          (res.Responses.length ≤ req.Tokens.length →
            newTokens = failedTokens req.Tokens res.Responses)) ∧
        (IsTopic req = true →
          newTokens = [] ∧ ∃ r rest, res.Responses = r :: rest ∧ isError = r.failed) := by
  unfold sendRound
  rcases InitFCMClient_cases env env.PushConf.Firebase.CredentialsFile w.FCMClient with
    ⟨err, hinit, hwhy⟩ | ⟨c, hinit, hcred, hwhy⟩
  · simp only [hinit]
    exact ⟨not_clientAvailable_of_init_error hwhy, err, rfl⟩
  · simp only [hinit]
    have hav : ClientAvailable env w := clientAvailable_of_init_ok hcred hwhy
    cases hs : env.SendAll rc (getAndroidNotifications req) with
    | error err => exact ⟨hav, err, c, rfl, rfl⟩
    | ok res =>
      simp only []
      have hfold := foldResponses_summary env req res
        ((({ w with
              rounds := w.rounds + 1
              FCMClient := some c
              calls := w.calls ++ [ProviderCall.mk rc (getAndroidNotifications req) (.ok res)] }
            : World).Debug ("Android Success count: " ++ toString res.SuccessCount ++
              ", Failure count: " ++ toString res.FailureCount)).AddAndroidSuccess
              res.SuccessCount |>.AddAndroidError res.FailureCount)
      revert hfold
      generalize foldResponses env req res _ = out
      intro hfold
      cases out with
      | initFailed w' => exact hfold.elim
      | sendFailed w' => exact hfold.elim
      | panicked w' =>
        obtain ⟨hf, ht, hr⟩ := hfold
        exact ⟨res, ⟨hs, hav, by rw [hf.2.2.2.1]; rfl, by rw [hf.1]; rfl, by rw [hf.1]; rfl,
          by rw [hf.2.1]; rfl, by rw [hf.2.2.1]; rfl,
          by rw [hf.2.2.2.2]; simp [World.AddAndroidError, World.AddAndroidSuccess, World.Debug,
            World.errorEntries]⟩, ht, hr⟩
      | folded isError newTokens w' =>
        obtain ⟨hf, h1, h2⟩ := hfold
        exact ⟨res, ⟨hs, hav, by rw [hf.2.2.2.1]; rfl, by rw [hf.1]; rfl, by rw [hf.1]; rfl,
          by rw [hf.2.1]; rfl, by rw [hf.2.2.1]; rfl,
          by rw [hf.2.2.2.2]; simp [World.AddAndroidError, World.AddAndroidSuccess, World.Debug,
            World.errorEntries]⟩, h1, h2⟩


/-! ## Properties: the retry loop -/

theorem retry_test {isError : Bool} {rc : Nat} {maxRetry : Int}
    (h : (isError && decide ((rc : Int) < maxRetry)) = true) :
    isError = true ∧ (rc : Int) < maxRetry := by
  simpa using h

theorem retryLoop_returns (env : Env) (maxRetry : Int) :
    ∀ (fuel rc : Nat) (req : PushNotification) (w : World),
      (maxRetry - rc).toNat < fuel → ∃ r, retryLoop env maxRetry fuel rc req w = some r := by
  intro fuel
  induction fuel with
  | zero => intro rc req w h; omega
  | succ n ih =>
    intro rc req w h
    unfold retryLoop
    cases sendRound env rc req w with
    | initFailed w1 => exact ⟨_, rfl⟩
    | sendFailed w1 => exact ⟨_, rfl⟩
    | panicked w1 => exact ⟨_, rfl⟩
    | folded isError newTokens w1 =>
      simp only []
      split
      · rename_i hc
        have hlt : (rc : Int) < maxRetry := (retry_test hc).2
        exact ih (rc + 1) _ w1 (by push_cast; omega)
      · exact ⟨_, rfl⟩

theorem PushToAndroid_returns (env : Env) (req : PushNotification) (w : World) :
    ∃ r, PushToAndroid env req w = some r := by
  unfold PushToAndroid
  cases env.CheckMessage req with
  | some err => exact ⟨_, rfl⟩
  | none => exact retryLoop_returns env _ _ 0 req _ (by simp)

theorem retryLoop_rounds (env : Env) (maxRetry : Int) :
    ∀ (fuel rc : Nat) (req : PushNotification) (w : World) (ex : Exit) (w' : World),
      retryLoop env maxRetry fuel rc req w = some (ex, w') →
      w.rounds + 1 ≤ w'.rounds ∧ w'.rounds ≤ w.rounds + (maxRetry - rc).toNat + 1 ∧
      w'.calls.length ≤ w.calls.length + (w'.rounds - w.rounds) ∧
      (ClientAvailable env w → w'.calls.length = w.calls.length + (w'.rounds - w.rounds)) := by
  intro fuel
  induction fuel with
  | zero => intro rc req w ex w' h; simp [retryLoop] at h
  | succ n ih =>
    intro rc req w ex w' h
    unfold retryLoop at h
    have hsum := sendRound_summary env rc req w
    cases hr : sendRound env rc req w with
    | initFailed w1 =>
      rw [hr] at h hsum
      simp only [Option.some.injEq, Prod.mk.injEq] at h
      obtain ⟨hna, err, hw⟩ := hsum
      rw [← h.2, hw]
      simp [World.Error]
      exact fun hav => (hna hav).elim
    | sendFailed w1 =>
      rw [hr] at h hsum
      simp only [Option.some.injEq, Prod.mk.injEq] at h
      obtain ⟨_, err, c, _, hw⟩ := hsum
      rw [← h.2, hw]
      simp [World.Error]
    | panicked w1 =>
      rw [hr] at h hsum
      simp only [Option.some.injEq, Prod.mk.injEq] at h
      obtain ⟨res, hf, _⟩ := hsum
      obtain ⟨_, _, _, _, _, hcalls, hrounds, _⟩ := hf
      rw [← h.2, hcalls, hrounds]
      simp
    | folded isError newTokens w1 =>
      rw [hr] at h hsum
      simp only [] at h
      obtain ⟨res, hf, _⟩ := hsum
      obtain ⟨_, hav, hsome, _, _, hcalls, hrounds, _⟩ := hf
      split at h
      · rename_i hc
        have hlt : (rc : Int) < maxRetry := (retry_test hc).2
        have hav1 : ClientAvailable env w1 := ⟨hav.1, Or.inl hsome⟩
        obtain ⟨h1, h2, h3, h4⟩ := ih _ _ _ _ _ h
        have h5 := h4 hav1
        rw [hcalls] at h3 h5
        simp at h3 h5
        refine ⟨by omega, by push_cast at h2; omega, by omega, fun _ => by omega⟩
      · simp only [Option.some.injEq, Prod.mk.injEq] at h
        rw [← h.2, hcalls, hrounds]
        simp


theorem retryLoop_initFailed (env : Env) (maxRetry : Int) :
    ∀ (fuel rc : Nat) (req : PushNotification) (w w' : World),
      retryLoop env maxRetry fuel rc req w = some (.initFailed, w') →
      sendRound env rc req w = .initFailed w' := by
  intro fuel
  induction fuel with
  | zero => intro rc req w w' h; simp [retryLoop] at h
  | succ n ih =>
    intro rc req w w' h
    unfold retryLoop at h
    have hsum := sendRound_summary env rc req w
    cases hr : sendRound env rc req w with
    | initFailed w1 =>
      rw [hr] at h
      simp only [Option.some.injEq, Prod.mk.injEq, true_and] at h
      rw [h]
    | sendFailed w1 => rw [hr] at h; simp at h
    | panicked w1 => rw [hr] at h; simp at h
    | folded isError newTokens w1 =>
      rw [hr] at h hsum
      simp only [] at h
      obtain ⟨res, hf, _⟩ := hsum
      obtain ⟨_, hav, hsome, _⟩ := hf
      split at h
      · have hbad := ih _ _ _ _ h
        have hsum1 := sendRound_summary env (rc + 1) { req with Tokens := newTokens } w1
        rw [hbad] at hsum1
        exact (hsum1.1 ⟨hav.1, Or.inl hsome⟩).elim
      · simp at h

theorem retryLoop_sendFailed (env : Env) (maxRetry : Int) :
    ∀ (fuel rc : Nat) (req : PushNotification) (w w' : World),
      retryLoop env maxRetry fuel rc req w = some (.sendFailed, w') →
      ∃ rc' req' w_r, RoundBegins env maxRetry rc req w rc' req' w_r ∧
        sendRound env rc' req' w_r = .sendFailed w' := by
  intro fuel
  induction fuel with
  | zero => intro rc req w w' h; simp [retryLoop] at h
  | succ n ih =>
    intro rc req w w' h
    unfold retryLoop at h
    cases hr : sendRound env rc req w with
    | initFailed w1 => rw [hr] at h; simp at h
    | sendFailed w1 =>
      rw [hr] at h
      simp only [Option.some.injEq, Prod.mk.injEq, true_and] at h
      exact ⟨rc, req, w, RoundBegins.first rc req w, by rw [hr, h]⟩
    | panicked w1 => rw [hr] at h; simp at h
    | folded isError newTokens w1 =>
      rw [hr] at h
      simp only [] at h
      split at h
      · rename_i hc
        obtain ⟨hE, hlt⟩ := retry_test hc
        subst hE
        obtain ⟨rc', req', w_r, hb, hs⟩ := ih _ _ _ _ h
        exact ⟨rc', req', w_r, RoundBegins.next hr hlt hb, hs⟩
      · simp at h

theorem retryLoop_ne_invalid (env : Env) (maxRetry : Int) :
    ∀ (fuel rc : Nat) (req : PushNotification) (w w' : World),
      retryLoop env maxRetry fuel rc req w = some (.invalid, w') → False := by
  intro fuel
  induction fuel with
  | zero => intro rc req w w' h; simp [retryLoop] at h
  | succ n ih =>
    intro rc req w w' h
    unfold retryLoop at h
    cases hr : sendRound env rc req w with
    | initFailed w1 => rw [hr] at h; simp at h
    | sendFailed w1 => rw [hr] at h; simp at h
    | panicked w1 => rw [hr] at h; simp at h
    | folded isError newTokens w1 =>
      rw [hr] at h
      simp only [] at h
      split at h
      · exact ih _ _ _ _ h
      · simp at h

theorem getAndroidNotifications_topic_length {req : PushNotification}
    (h : IsTopic req = true) : (getAndroidNotifications req).length = 1 := by
  unfold getAndroidNotifications
  by_cases ht : req.Topic = ""
  · have hc : req.Condition ≠ "" := by
      intro hc
      simp [IsTopic, ht, hc] at h
    have h1 : ¬ 0 < req.Topic.length := by rw [length_pos_iff]; simp [ht]
    have h2 : 0 < req.Condition.length := (length_pos_iff _).2 hc
    simp [h1, h2]
  · have h1 : 0 < req.Topic.length := (length_pos_iff _).2 ht
    simp [h1]

theorem retryLoop_no_panic (env : Env) (maxRetry : Int)
    (hprov : ∀ r msgs res, env.SendAll r msgs = .ok res → res.Responses.length = msgs.length) :
    ∀ (fuel rc : Nat) (req : PushNotification) (w w' : World),
      retryLoop env maxRetry fuel rc req w = some (.panicked, w') → False := by
  intro fuel
  induction fuel with
  | zero => intro rc req w w' h; simp [retryLoop] at h
  | succ n ih =>
    intro rc req w w' h
    unfold retryLoop at h
    have hsum := sendRound_summary env rc req w
    cases hr : sendRound env rc req w with
    | initFailed w1 => rw [hr] at h; simp at h
    | sendFailed w1 => rw [hr] at h; simp at h
    | panicked w1 =>
      rw [hr] at hsum
      obtain ⟨res, hf, ht, hnil⟩ := hsum
      have hlen := hprov _ _ _ hf.1
      rw [hnil, getAndroidNotifications_topic_length ht] at hlen
      simp at hlen
    | folded isError newTokens w1 =>
      rw [hr] at h
      simp only [] at h
      split at h
      · exact ih _ _ _ _ h
      · simp at h

/-- C3: for a valid request, whatever the provider does, `PushToAndroid` terminates
after at least one and at most `max(effective_max_retry, 0) + 1` rounds; with
`effective_max_retry = 0` it runs exactly one round.  Every round makes at most one
provider call, and exactly one when the client can be obtained; and when the
provider returns one outcome per message, the send ends by returning its boolean. -/
theorem PushToAndroid_round_bounds (env : Env) (req : PushNotification) (w : World)
    (hvalid : env.CheckMessage req = none) :
    ∃ ex w', PushToAndroid env req w = some (ex, w') ∧
      w.rounds + 1 ≤ w'.rounds ∧
      w'.rounds ≤ w.rounds +
        (max (effectiveMaxRetry env.PushConf.Android.MaxRetry req.Retry) 0).toNat + 1 ∧
      (effectiveMaxRetry env.PushConf.Android.MaxRetry req.Retry = 0 →
        w'.rounds = w.rounds + 1) ∧
      w'.calls.length ≤ w.calls.length + (w'.rounds - w.rounds) ∧
      (ClientAvailable env w → w'.calls.length = w.calls.length + (w'.rounds - w.rounds)) ∧
      ((∀ r msgs res, env.SendAll r msgs = .ok res → res.Responses.length = msgs.length) →
        ∃ b, ex.result = some b) := by
  obtain ⟨⟨ex, w'⟩, hret⟩ := PushToAndroid_returns env req w
  refine ⟨ex, w', hret, ?_⟩
  unfold PushToAndroid at hret
  simp only [hvalid] at hret
  obtain ⟨h1, h2, h3, h4⟩ := retryLoop_rounds env _ _ _ _ _ _ _ hret
  have h1' : w.rounds + 1 ≤ w'.rounds := h1
  have h2' : w'.rounds ≤ w.rounds +
      (effectiveMaxRetry env.PushConf.Android.MaxRetry req.Retry - (0 : Nat)).toNat + 1 := h2
  have h3' : w'.calls.length ≤ w.calls.length + (w'.rounds - w.rounds) := h3
  have h4' : ClientAvailable env w →
      w'.calls.length = w.calls.length + (w'.rounds - w.rounds) := h4
  refine ⟨h1', ?_, ?_, h3', h4', ?_⟩
  · have : (max (effectiveMaxRetry env.PushConf.Android.MaxRetry req.Retry) 0).toNat =
        (effectiveMaxRetry env.PushConf.Android.MaxRetry req.Retry - (0 : Nat)).toNat := by
      rcases le_total (effectiveMaxRetry env.PushConf.Android.MaxRetry req.Retry) 0 with h | h
      · rw [max_eq_right h]; simp [Int.toNat_of_nonpos h]
      · rw [max_eq_left h]; simp
    rw [this]; exact h2'
  · intro h0
    rw [h0] at h2'
    simp at h2'
    omega
  · intro hprov
    cases ex with
    | panicked => exact (retryLoop_no_panic env _ hprov _ _ _ _ _ hret).elim
    | invalid => exact ⟨false, rfl⟩
    | initFailed => exact ⟨false, rfl⟩
    | sendFailed => exact ⟨false, rfl⟩
    | completed b => exact ⟨b, rfl⟩

/-- Witness of C3 on the spec's scenario (tokens `a`, `b`, `c`, two retries). -/
theorem PushToAndroid_round_bounds_witness :
    envABC.CheckMessage reqABC = none ∧
    ∃ ex w', PushToAndroid envABC reqABC {} = some (ex, w') ∧
      ({} : World).rounds + 1 ≤ w'.rounds ∧
      w'.rounds ≤ ({} : World).rounds +
        (max (effectiveMaxRetry envABC.PushConf.Android.MaxRetry reqABC.Retry) 0).toNat + 1 ∧
      (effectiveMaxRetry envABC.PushConf.Android.MaxRetry reqABC.Retry = 0 →
        w'.rounds = ({} : World).rounds + 1) ∧
      w'.calls.length ≤ ({} : World).calls.length + (w'.rounds - ({} : World).rounds) ∧
      (ClientAvailable envABC {} →
        w'.calls.length = ({} : World).calls.length + (w'.rounds - ({} : World).rounds)) ∧
      ((∀ r msgs res, envABC.SendAll r msgs = .ok res → res.Responses.length = msgs.length) →
        ∃ b, ex.result = some b) :=
  ⟨rfl, PushToAndroid_round_bounds envABC reqABC {} rfl⟩

theorem sendRound_of_no_client {env : Env} {rc : Nat} {req : PushNotification} {w : World}
    (h : ¬ ClientAvailable env w) :
    ∃ err, sendRound env rc req w =
      .initFailed (({ w with rounds := w.rounds + 1 } : World).Error ("FCM server error: " ++ err)) := by
  have hsum := sendRound_summary env rc req w
  cases hr : sendRound env rc req w with
  | initFailed w1 =>
    rw [hr] at hsum
    obtain ⟨_, err, hw⟩ := hsum
    exact ⟨err, by rw [hw]⟩
  | sendFailed w1 => rw [hr] at hsum; exact (h hsum.1).elim
  | panicked w1 =>
    rw [hr] at hsum
    obtain ⟨res, hf, _⟩ := hsum
    exact (h hf.2.1).elim
  | folded isError newTokens w1 =>
    rw [hr] at hsum
    obtain ⟨res, hf, _⟩ := hsum
    exact (h hf.2.1).elim

theorem sendRound_of_send_error {env : Env} {rc : Nat} {req : PushNotification} {w : World}
    {err : String} (hav : ClientAvailable env w)
    (hs : env.SendAll rc (getAndroidNotifications req) = .error err) :
    ∃ w', sendRound env rc req w = .sendFailed w' ∧
      w'.StatStorage = w.StatStorage ∧
      w'.calls = w.calls ++ [ProviderCall.mk rc (getAndroidNotifications req) (.error err)] ∧
      w'.rounds = w.rounds + 1 ∧
      w'.log = w.log ++ [Event.errorError ("FCM server send message error: " ++ err)] := by
  have hsum := sendRound_summary env rc req w
  cases hr : sendRound env rc req w with
  | initFailed w1 => rw [hr] at hsum; exact (hsum.1 hav).elim
  | sendFailed w1 =>
    rw [hr] at hsum
    obtain ⟨_, err', c, he, hw⟩ := hsum
    rw [hs] at he
    cases he
    exact ⟨w1, rfl, by rw [hw]; rfl, by rw [hw]; rfl, by rw [hw]; rfl, by rw [hw]; rfl⟩
  | panicked w1 =>
    rw [hr] at hsum
    obtain ⟨res, hf, _⟩ := hsum
    have := hf.1
    rw [hs] at this; cases this
  | folded isError newTokens w1 =>
    rw [hr] at hsum
    obtain ⟨res, hf, _⟩ := hsum
    have := hf.1
    rw [hs] at this; cases this

theorem retryLoop_of_roundBegins {env : Env} {maxRetry : Int} {rc : Nat}
    {req : PushNotification} {w : World} {rc' : Nat} {req' : PushNotification} {w_r : World}
    (h : RoundBegins env maxRetry rc req w rc' req' w_r) :
    ∀ fuel, (maxRetry - rc).toNat < fuel →
      ∃ fuel', retryLoop env maxRetry fuel rc req w =
        retryLoop env maxRetry (fuel' + 1) rc' req' w_r := by
  induction h with
  | first rc req w =>
    intro fuel hf
    exact ⟨fuel - 1, by rw [Nat.sub_add_cancel (by omega)]⟩
  | next hs hlt _ ih =>
    intro fuel hf
    obtain ⟨n, rfl⟩ : ∃ n, fuel = n + 1 := ⟨fuel - 1, by omega⟩
    obtain ⟨fuel', hfuel'⟩ := ih n (by push_cast; omega)
    refine ⟨fuel', ?_⟩
    rw [← hfuel']
    conv_lhs => unfold retryLoop
    rw [hs]
    simp [hlt]

theorem roundBegins_clientAvailable {env : Env} {maxRetry : Int} {rc : Nat}
    {req : PushNotification} {w : World} {rc' : Nat} {req' : PushNotification} {w_r : World}
    (h : RoundBegins env maxRetry rc req w rc' req' w_r) :
    ClientAvailable env w → ClientAvailable env w_r := by
  induction h with
  | first rc req w => exact id
  | @next rc req w newTokens w1 rc' req' w' hs _ _ ih =>
    intro hav
    have hsum := sendRound_summary env rc req w
    rw [hs] at hsum
    obtain ⟨res, hf, _⟩ := hsum
    exact ih ⟨hav.1, Or.inl hf.2.2.1⟩

theorem PushToAndroid_of_round_abort {env : Env} {req : PushNotification} {w : World}
    (hvalid : env.CheckMessage req = none) {rc : Nat} {req_r : PushNotification} {w_r : World}
    (hb : RoundBegins env (effectiveMaxRetry env.PushConf.Android.MaxRetry req.Retry) 0 req
      (w.Debug "Start push notification for Android") rc req_r w_r)
    (ex : Exit) (w' : World)
    (h : (sendRound env rc req_r w_r = .initFailed w' ∧ ex = .initFailed) ∨
      (sendRound env rc req_r w_r = .sendFailed w' ∧ ex = .sendFailed)) :
    PushToAndroid env req w = some (ex, w') := by
  unfold PushToAndroid
  simp only [hvalid]
  obtain ⟨fuel', hfuel'⟩ := retryLoop_of_roundBegins hb
    ((effectiveMaxRetry env.PushConf.Android.MaxRetry req.Retry).toNat + 1) (by simp)
  rw [hfuel']
  unfold retryLoop
  rcases h with ⟨hs, rfl⟩ | ⟨hs, rfl⟩ <;> rw [hs]

/-- C8: an aborted attempt ends the send without touching the statistics.  A request
that validation rejects is answered with one error entry: no round, no provider
call, statistics untouched.  For a valid request, in whichever round the client
cannot be obtained or the batch send returns a batch-level error, the send ends in
the state that round leaves: the statistics are those of the beginning of the
round, one error entry is written, the provider is not called in the first case and
the failed call is the last one in the second; a missing client on the first call
leaves statistics and call history as they were.  Conversely the send ends early
only for one of these causes. -/
theorem PushToAndroid_abort_frame (env : Env) (req : PushNotification) (w : World) :
    (∀ err, env.CheckMessage req = some err →
      PushToAndroid env req w = some (.invalid,
        { w with log := w.log ++ [Event.accessDebug "Start push notification for Android",
            Event.errorError ("request error: " ++ err)] })) ∧
    (env.CheckMessage req = none → ¬ ClientAvailable env w →
      ∃ err, PushToAndroid env req w = some (.initFailed,
        { w with
          rounds := w.rounds + 1
          log := w.log ++ [Event.accessDebug "Start push notification for Android",
            Event.errorError ("FCM server error: " ++ err)] })) ∧
    (env.CheckMessage req = none →
      ∀ (rc : Nat) (req_r : PushNotification) (w_r : World),
        RoundBegins env (effectiveMaxRetry env.PushConf.Android.MaxRetry req.Retry) 0 req
          (w.Debug "Start push notification for Android") rc req_r w_r →
        (¬ ClientAvailable env w_r →
          ∃ w', PushToAndroid env req w = some (.initFailed, w') ∧
            w'.StatStorage = w_r.StatStorage ∧ w'.calls = w_r.calls ∧
            w'.rounds = w_r.rounds + 1 ∧ w'.errorEntries = w_r.errorEntries + 1) ∧
        (ClientAvailable env w_r →
          ∀ err, env.SendAll rc (getAndroidNotifications req_r) = .error err →
            ∃ w', PushToAndroid env req w = some (.sendFailed, w') ∧
              w'.StatStorage = w_r.StatStorage ∧
              w'.calls = w_r.calls ++
                [ProviderCall.mk rc (getAndroidNotifications req_r) (.error err)] ∧
              w'.rounds = w_r.rounds + 1 ∧
              w'.log = w_r.log ++
                [Event.errorError ("FCM server send message error: " ++ err)] ∧
              w'.errorEntries = w_r.errorEntries + 1)) ∧
    (∀ (ex : Exit) (w' : World), PushToAndroid env req w = some (ex, w') →
      (ex = .invalid → ∃ err, env.CheckMessage req = some err) ∧
      (ex = .initFailed → env.CheckMessage req = none ∧ ¬ ClientAvailable env w) ∧
      (ex = .sendFailed → env.CheckMessage req = none ∧
        ∃ rc req_r w_r err,
          RoundBegins env (effectiveMaxRetry env.PushConf.Android.MaxRetry req.Retry) 0 req
            (w.Debug "Start push notification for Android") rc req_r w_r ∧
          env.SendAll rc (getAndroidNotifications req_r) = .error err ∧
          sendRound env rc req_r w_r = .sendFailed w')) := by
  refine ⟨?_, ?_, ?_, ?_⟩
  · intro err hv
    unfold PushToAndroid
    simp [hv, World.Debug, World.Error]
  · intro hvalid hna
    have hna0 : ¬ ClientAvailable env (w.Debug "Start push notification for Android") := hna
    obtain ⟨err, hs⟩ := @sendRound_of_no_client env 0 req _ hna0
    refine ⟨err, ?_⟩
    rw [PushToAndroid_of_round_abort hvalid (RoundBegins.first 0 req _) _ _ (Or.inl ⟨hs, rfl⟩)]
    simp [World.Debug, World.Error]
  · intro hvalid rc req_r w_r hb
    refine ⟨?_, ?_⟩
    · intro hna
      obtain ⟨err, hs⟩ := @sendRound_of_no_client env rc req_r _ hna
      refine ⟨_, PushToAndroid_of_round_abort hvalid hb _ _ (Or.inl ⟨hs, rfl⟩), rfl, rfl, rfl, ?_⟩
      simp [World.Error, World.errorEntries, List.countP_append, List.countP_cons]
    · intro hav err hse
      obtain ⟨w', hs, h1, h2, h3, h4⟩ := sendRound_of_send_error hav hse
      refine ⟨w', PushToAndroid_of_round_abort hvalid hb _ _ (Or.inr ⟨hs, rfl⟩), h1, h2, h3, h4, ?_⟩
      simp [World.errorEntries, h4, List.countP_append, List.countP_cons]
  · intro ex w' h
    unfold PushToAndroid at h
    cases hv : env.CheckMessage req with
    | some err =>
      simp only [hv, Option.some.injEq, Prod.mk.injEq] at h
      obtain ⟨hex, _⟩ := h
      subst hex
      refine ⟨fun _ => ⟨err, rfl⟩, ?_, ?_⟩
      · intro hc; cases hc
      · intro hc; cases hc
    | none =>
      simp only [hv] at h
      refine ⟨?_, ?_, ?_⟩
      · intro hex
        subst hex
        exact (retryLoop_ne_invalid env _ _ _ _ _ _ h).elim
      · intro hex
        subst hex
        have hround := retryLoop_initFailed env _ _ _ _ _ _ h
        have hsum := sendRound_summary env 0 req (w.Debug "Start push notification for Android")
        rw [hround] at hsum
        exact ⟨rfl, hsum.1⟩
      · intro hex
        subst hex
        obtain ⟨rc, req_r, w_r, hb, hs⟩ := retryLoop_sendFailed env _ _ _ _ _ _ h
        have hsum := sendRound_summary env rc req_r w_r
        rw [hs] at hsum
        obtain ⟨_, err, c, hse, _⟩ := hsum
        exact ⟨rfl, rc, req_r, w_r, err, hb, hse, hs⟩

/-- Witness of C8: a rejected request, a send without credentials file, and a
batch-level error on round 1 of the send to `a`, `b`, `c` after `b` failed on
round 0. -/
theorem PushToAndroid_abort_frame_witness :
    (envRejecting.CheckMessage reqABC = some "no target" ∧
      PushToAndroid envRejecting reqABC {} = some (.invalid,
        { ({} : World) with
          log := ({} : World).log ++ [Event.accessDebug "Start push notification for Android",
            Event.errorError ("request error: " ++ "no target")] })) ∧
    (envNoCredentials.CheckMessage reqABC = none ∧ ¬ ClientAvailable envNoCredentials {} ∧
      ∃ err, PushToAndroid envNoCredentials reqABC {} = some (.initFailed,
        { ({} : World) with
          rounds := ({} : World).rounds + 1
          log := ({} : World).log ++ [Event.accessDebug "Start push notification for Android",
            Event.errorError ("FCM server error: " ++ err)] })) ∧
    (envFlaky.CheckMessage reqABC = none ∧
      RoundBegins envFlaky (effectiveMaxRetry envFlaky.PushConf.Android.MaxRetry reqABC.Retry)
        0 reqABC (World.Debug {} "Start push notification for Android")
        1 { reqABC with Tokens := ["b"] } worldFlaky1 ∧
      ClientAvailable envFlaky worldFlaky1 ∧
      envFlaky.SendAll 1 (getAndroidNotifications { reqABC with Tokens := ["b"] }) =
        .error "deadline exceeded" ∧
      ∃ w', PushToAndroid envFlaky reqABC {} = some (.sendFailed, w') ∧
        w'.StatStorage = worldFlaky1.StatStorage ∧
        w'.calls = worldFlaky1.calls ++
          [ProviderCall.mk 1 (getAndroidNotifications { reqABC with Tokens := ["b"] })
            (.error "deadline exceeded")] ∧
        w'.rounds = worldFlaky1.rounds + 1 ∧
        w'.log = worldFlaky1.log ++
          [Event.errorError ("FCM server send message error: " ++ "deadline exceeded")] ∧
        w'.errorEntries = worldFlaky1.errorEntries + 1) :=
  ⟨⟨rfl, (PushToAndroid_abort_frame envRejecting reqABC {}).1 "no target" rfl⟩,
    ⟨rfl, fun h => h.1 rfl,
      (PushToAndroid_abort_frame envNoCredentials reqABC {}).2.1 rfl (fun h => h.1 rfl)⟩,
    ⟨rfl, RoundBegins.next (by decide) (by decide) (RoundBegins.first _ _ _),
      ⟨by decide, Or.inl (by decide)⟩, rfl,
      ((PushToAndroid_abort_frame envFlaky reqABC {}).2.2.1 rfl 1 { reqABC with Tokens := ["b"] }
        worldFlaky1
        (RoundBegins.next (by decide) (by decide) (RoundBegins.first _ _ _))).2
        ⟨by decide, Or.inl (by decide)⟩ "deadline exceeded" rfl⟩⟩

theorem isTopic_of_tokenRequest {req : PushNotification} (h : TokenRequest req) :
    IsTopic req = false := by
  simp [IsTopic, h.1, h.2]

theorem tokenRequest_batch {req : PushNotification} (h : TokenRequest req) :
    (getAndroidNotifications req).length = req.Tokens.length ∧
    (getAndroidNotifications req).map (fun m => m.Token) = req.Tokens := by
  rw [getAndroidNotifications_tokens req h.1 h.2]
  refine ⟨by simp, ?_⟩
  rw [List.map_map]
  conv_rhs => rw [← List.map_id req.Tokens]
  rfl

theorem retryLoop_success_total (env : Env) (maxRetry : Int)
    (hprov : ∀ r msgs res, env.SendAll r msgs = .ok res → WellFormedReply msgs res) :
    ∀ (fuel rc : Nat) (req : PushNotification) (w : World) (b : Bool) (w' : World),
      TokenRequest req →
      retryLoop env maxRetry fuel rc req w = some (.completed b, w') →
      ∃ c res, w'.calls.getLast? = some c ∧ c.reply = .ok res ∧
        w'.StatStorage.AndroidSuccess + failureCount res.Responses =
          w.StatStorage.AndroidSuccess + req.Tokens.length ∧
        w.StatStorage.AndroidSuccess ≤ w'.StatStorage.AndroidSuccess ∧
        b = decide (0 < failureCount res.Responses) ∧
        (w'.rounds = w.rounds + 1 →
          w'.StatStorage.AndroidSuccess =
            w.StatStorage.AndroidSuccess + successCount res.Responses ∧
          w'.StatStorage.AndroidError =
            w.StatStorage.AndroidError + failureCount res.Responses) := by
  intro fuel
  induction fuel with
  | zero => intro rc req w b w' _ h; simp [retryLoop] at h
  | succ n ih =>
    intro rc req w b w' hreq h
    unfold retryLoop at h
    have hsum := sendRound_summary env rc req w
    cases hr : sendRound env rc req w with
    | initFailed w1 => rw [hr] at h; simp at h
    | sendFailed w1 => rw [hr] at h; simp at h
    | panicked w1 => rw [hr] at h; simp at h
    | folded isError newTokens w1 =>
      rw [hr] at h hsum
      simp only [] at h
      obtain ⟨res, hf, htok, _⟩ := hsum
      obtain ⟨hsend, _, _, hsucc, herr, hcalls, hrounds, _⟩ := hf
      obtain ⟨hlen, hsc, hfc⟩ := hprov _ _ _ hsend
      rw [(tokenRequest_batch hreq).1] at hlen
      obtain ⟨hise, hnew⟩ := htok (isTopic_of_tokenRequest hreq)
      have hnew := hnew (le_of_eq hlen)
      have hsf := success_add_failure res.Responses
      split at h
      · obtain ⟨c, res', hlast, hrep, hsum', hmono, hb, _⟩ :=
          ih (rc + 1) { req with Tokens := newTokens } w1 b w' hreq h
        have hr1 := (retryLoop_rounds env _ _ _ _ _ _ _ h).1
        refine ⟨c, res', hlast, hrep, ?_, ?_, hb, ?_⟩
        · have hl : (newTokens.length : Int) = failureCount res.Responses := by
            rw [hnew, failedTokens_length _ _ (le_of_eq hlen)]
          simp only [] at hsum'
          rw [hsucc, hsc] at hsum'
          have : (successCount res.Responses : Int) + failureCount res.Responses =
              req.Tokens.length := by rw [← hlen, ← hsf]; push_cast; rfl
          omega
        · rw [hsucc, hsc] at hmono; omega
        · intro hone; omega
      · simp only [Option.some.injEq, Prod.mk.injEq, Exit.completed.injEq] at h
        obtain ⟨hb, hw⟩ := h
        subst hw
        refine ⟨ProviderCall.mk rc (getAndroidNotifications req) (.ok res), res,
          by rw [hcalls]; simp, rfl, ?_, ?_, ?_, ?_⟩
        · rw [hsucc, hsc]
          have : (successCount res.Responses : Int) + failureCount res.Responses =
              req.Tokens.length := by rw [← hlen, ← hsf]; push_cast; rfl
          omega
        · rw [hsucc, hsc]; omega
        · rw [← hb, hise, failed_any_iff]
        · intro _
          exact ⟨by rw [hsucc, hsc], by rw [herr, hfc]⟩

/-- C6: for a token request with `K` tokens and a provider that answers every batch
with one outcome per message and matching counts, a send that completes (no abort)
has added to the Android success counter, over all its rounds, `K` minus the number
of failed outcomes of its final round; so the success total is at most `K`; and a
send of a single round adds exactly that round's successes and failures. -/
theorem PushToAndroid_success_total (env : Env) (req : PushNotification) (w : World)
    (b : Bool) (w' : World) (hreq : TokenRequest req)
    (hprov : ∀ r msgs res, env.SendAll r msgs = .ok res → WellFormedReply msgs res)
    (h : PushToAndroid env req w = some (.completed b, w')) :
    ∃ c res, w'.calls.getLast? = some c ∧ c.reply = .ok res ∧
      (w'.StatStorage.AndroidSuccess - w.StatStorage.AndroidSuccess) +
        failureCount res.Responses = req.Tokens.length ∧
      0 ≤ w'.StatStorage.AndroidSuccess - w.StatStorage.AndroidSuccess ∧
      w'.StatStorage.AndroidSuccess - w.StatStorage.AndroidSuccess ≤ req.Tokens.length ∧
      b = decide (0 < failureCount res.Responses) ∧
      (w'.rounds = w.rounds + 1 →
        w'.StatStorage.AndroidSuccess =
          w.StatStorage.AndroidSuccess + successCount res.Responses ∧
        w'.StatStorage.AndroidError =
          w.StatStorage.AndroidError + failureCount res.Responses) := by
  unfold PushToAndroid at h
  cases hv : env.CheckMessage req with
  | some err => simp [hv] at h
  | none =>
    simp only [hv] at h
    obtain ⟨c, res, hlast, hrep, hsum, hmono, hb, hone⟩ :=
      retryLoop_success_total env _ hprov _ _ _ _ _ _ hreq h
    have hsum' : w'.StatStorage.AndroidSuccess + failureCount res.Responses =
        w.StatStorage.AndroidSuccess + req.Tokens.length := hsum
    have hmono' : w.StatStorage.AndroidSuccess ≤ w'.StatStorage.AndroidSuccess := hmono
    refine ⟨c, res, hlast, hrep, by omega, by omega, by omega, hb, hone⟩

theorem answer_wellFormed (outcome : Message → SendResponse) (msgs : List Message) :
    WellFormedReply msgs (answer outcome msgs) :=
  ⟨by simp [answer], rfl, rfl⟩

theorem envABC_wellFormed :
    ∀ r msgs res, envABC.SendAll r msgs = .ok res → WellFormedReply msgs res := by
  intro r msgs res h
  simp only [envABC] at h
  split at h
  · simp only [Reply.ok.injEq] at h
    subst h
    exact answer_wellFormed _ _
  · simp only [Reply.ok.injEq] at h
    subst h
    exact answer_wellFormed _ _


theorem failedTokens_ne_nil {tokens : List String} {responses : List SendResponse}
    (hlen : responses.length ≤ tokens.length)
    (h : responses.any SendResponse.failed = true) :
    failedTokens tokens responses ≠ [] := by
  intro hnil
  have hl := failedTokens_length tokens responses hlen
  rw [hnil] at hl
  rw [failed_any_iff] at h
  simp at hl h
  omega

theorem retryLoop_chain (env : Env) (maxRetry : Int)
    (hprov : ∀ r msgs res, env.SendAll r msgs = .ok res → res.Responses.length = msgs.length) :
    ∀ (fuel rc : Nat) (req : PushNotification) (w : World) (ex : Exit) (w' : World),
      TokenRequest req →
      retryLoop env maxRetry fuel rc req w = some (ex, w') →
      ∃ cs, w'.calls = w.calls ++ cs ∧ RetryChain req.Tokens cs := by
  intro fuel
  induction fuel with
  | zero => intro rc req w ex w' _ h; simp [retryLoop] at h
  | succ n ih =>
    intro rc req w ex w' hreq h
    unfold retryLoop at h
    have hsum := sendRound_summary env rc req w
    cases hr : sendRound env rc req w with
    | initFailed w1 =>
      rw [hr] at h hsum
      simp only [Option.some.injEq, Prod.mk.injEq] at h
      obtain ⟨_, err, hw⟩ := hsum
      exact ⟨[], by rw [← h.2, hw]; simp [World.Error], trivial⟩
    | sendFailed w1 =>
      rw [hr] at h hsum
      simp only [Option.some.injEq, Prod.mk.injEq] at h
      obtain ⟨_, err, c, _, hw⟩ := hsum
      exact ⟨[ProviderCall.mk rc (getAndroidNotifications req) (.error err)],
        by rw [← h.2, hw]; simp [World.Error], (tokenRequest_batch hreq).2, Or.inl rfl⟩
    | panicked w1 =>
      rw [hr] at h hsum
      simp only [Option.some.injEq, Prod.mk.injEq] at h
      obtain ⟨res, hf, _⟩ := hsum
      exact ⟨[ProviderCall.mk rc (getAndroidNotifications req) (.ok res)],
        by rw [← h.2, hf.2.2.2.2.2.1], (tokenRequest_batch hreq).2, Or.inl rfl⟩
    | folded isError newTokens w1 =>
      rw [hr] at h hsum
      simp only [] at h
      obtain ⟨res, hf, htok, _⟩ := hsum
      obtain ⟨hsend, _, _, _, _, hcalls, _, _⟩ := hf
      have hlen := hprov _ _ _ hsend
      rw [(tokenRequest_batch hreq).1] at hlen
      obtain ⟨hise, hnew⟩ := htok (isTopic_of_tokenRequest hreq)
      have hnew := hnew (le_of_eq hlen)
      split at h
      · rename_i hc
        obtain ⟨hE, _⟩ := retry_test hc
        obtain ⟨cs, hcs, hchain⟩ := ih (rc + 1) { req with Tokens := newTokens } w1 ex w' hreq h
        refine ⟨ProviderCall.mk rc (getAndroidNotifications req) (.ok res) :: cs,
          by rw [hcs, hcalls]; simp, (tokenRequest_batch hreq).2, Or.inr ⟨res, rfl, ?_, ?_⟩⟩
        · exact failedTokens_ne_nil (le_of_eq hlen) (by rw [← hise, hE])
        · rw [← hnew]; exact hchain
      · simp only [Option.some.injEq, Prod.mk.injEq] at h
        exact ⟨[ProviderCall.mk rc (getAndroidNotifications req) (.ok res)],
          by rw [← h.2, hcalls], (tokenRequest_batch hreq).2, Or.inl rfl⟩

theorem RetryChain.consecutive :
    ∀ (cs : List ProviderCall) (tokens : List String), RetryChain tokens cs →
      ∀ (i : Nat) (c c' : ProviderCall), cs.get? i = some c → cs.get? (i + 1) = some c' →
        ∃ res, c.reply = .ok res ∧
          c'.batch.map (fun m => m.Token) =
            failedTokens (c.batch.map (fun m => m.Token)) res.Responses ∧
          c'.batch.map (fun m => m.Token) ≠ [] := by
  intro cs
  induction cs with
  | nil => intro tokens _ i c c' h; simp at h
  | cons c0 rest ih =>
    intro tokens hchain i c c' hi hi'
    obtain ⟨hbatch, hrest⟩ := hchain
    rcases hrest with hnil | ⟨res, hrep, hne, hchain'⟩
    · subst hnil; simp at hi'
    · cases i with
      | zero =>
        simp only [List.get?_cons_zero, Option.some.injEq] at hi
        subst hi
        cases rest with
        | nil => simp at hi'
        | cons c1 rest' =>
          simp only [List.get?_cons_succ, List.get?_cons_zero, Option.some.injEq] at hi'
          subst hi'
          have h1 := hchain'.1
          exact ⟨res, hrep, by rw [hbatch, h1], by rw [h1]; exact hne⟩
      | succ j =>
        simp only [List.get?_cons_succ] at hi hi'
        exact ih _ hchain' j c c' hi hi'

/-- C10: for a token request and a provider that returns one outcome per message,
the batches of a send are chained: the first one is addressed to the request's
tokens, and every retry batch to exactly those tokens of the batch before it whose
positional outcome failed, in order and with multiplicity; so a retry batch's token
list is a non-empty sublist of the previous one's. -/
theorem PushToAndroid_retry_tokens (env : Env) (req : PushNotification) (w : World)
    (ex : Exit) (w' : World) (hreq : TokenRequest req)
    (hprov : ∀ r msgs res, env.SendAll r msgs = .ok res → res.Responses.length = msgs.length)
    (h : PushToAndroid env req w = some (ex, w')) :
    ∃ cs, w'.calls = w.calls ++ cs ∧
      (∀ c, cs.head? = some c → c.batch.map (fun m => m.Token) = req.Tokens) ∧
      ∀ (i : Nat) (c c' : ProviderCall), cs.get? i = some c → cs.get? (i + 1) = some c' →
        ∃ res, c.reply = .ok res ∧
          c'.batch.map (fun m => m.Token) =
            failedTokens (c.batch.map (fun m => m.Token)) res.Responses ∧
          (c'.batch.map (fun m => m.Token)).Sublist (c.batch.map (fun m => m.Token)) ∧
          c'.batch.map (fun m => m.Token) ≠ [] := by
  unfold PushToAndroid at h
  cases hv : env.CheckMessage req with
  | some err =>
    simp only [hv, Option.some.injEq, Prod.mk.injEq] at h
    refine ⟨[], by rw [← h.2]; simp [World.Error, World.Debug], by simp, by simp⟩
  | none =>
    simp only [hv] at h
    obtain ⟨cs, hcs, hchain⟩ := retryLoop_chain env _ hprov _ _ _ _ _ _ hreq h
    refine ⟨cs, hcs, ?_, ?_⟩
    · intro c hc
      cases cs with
      | nil => simp at hc
      | cons c0 rest =>
        simp only [List.head?_cons, Option.some.injEq] at hc
        subst hc
        exact hchain.1
    · intro i c c' hi hi'
      obtain ⟨res, hrep, heq, hne⟩ := RetryChain.consecutive cs _ hchain i c c' hi hi'
      exact ⟨res, hrep, heq, by rw [heq]; exact failedTokens_sublist _ _, hne⟩

/-- Witness of C10 on the spec's scenario: the retry batch of the send to `a`, `b`,
`c` is addressed to `b`. -/
theorem PushToAndroid_retry_tokens_witness :
    TokenRequest reqABC ∧
    PushToAndroid envABC reqABC {} = some (.completed false, finalWorld envABC reqABC {}) ∧
    ∃ cs, (finalWorld envABC reqABC {}).calls = ({} : World).calls ++ cs ∧
      (∀ c, cs.head? = some c → c.batch.map (fun m => m.Token) = reqABC.Tokens) ∧
      ∀ (i : Nat) (c c' : ProviderCall), cs.get? i = some c → cs.get? (i + 1) = some c' →
        ∃ res, c.reply = .ok res ∧
          c'.batch.map (fun m => m.Token) =
            failedTokens (c.batch.map (fun m => m.Token)) res.Responses ∧
          (c'.batch.map (fun m => m.Token)).Sublist (c.batch.map (fun m => m.Token)) ∧
          c'.batch.map (fun m => m.Token) ≠ [] :=
  ⟨⟨rfl, rfl⟩, by decide,
    PushToAndroid_retry_tokens envABC reqABC {} (.completed false) _ ⟨rfl, rfl⟩
      (fun r msgs res h => (envABC_wellFormed r msgs res h).1) (by decide)⟩


theorem sendRound_token_ok {env : Env} {rc : Nat} {req : PushNotification} {w : World}
    {res : BatchResponse} (hreq : TokenRequest req) (hav : ClientAvailable env w)
    (hs : env.SendAll rc (getAndroidNotifications req) = .ok res)
    (hlen : res.Responses.length = req.Tokens.length) :
    ∃ w', sendRound env rc req w =
        .folded (decide (0 < failureCount res.Responses))
          (failedTokens req.Tokens res.Responses) w' ∧
      RoundFolded env rc req w res w' := by
  have hsum := sendRound_summary env rc req w
  cases hr : sendRound env rc req w with
  | initFailed w1 => rw [hr] at hsum; exact (hsum.1 hav).elim
  | sendFailed w1 =>
    rw [hr] at hsum
    obtain ⟨_, err, c, he, _⟩ := hsum
    rw [hs] at he; cases he
  | panicked w1 =>
    rw [hr] at hsum
    obtain ⟨res', _, ht, _⟩ := hsum
    rw [isTopic_of_tokenRequest hreq] at ht; cases ht
  | folded isError newTokens w1 =>
    rw [hr] at hsum
    obtain ⟨res', hf, htok, _⟩ := hsum
    have hres : res' = res := by
      have := hf.1
      rw [hs] at this
      exact (Reply.ok.inj this).symm
    subst hres
    obtain ⟨hise, hnew⟩ := htok (isTopic_of_tokenRequest hreq)
    have hnew := hnew (le_of_eq hlen)
    refine ⟨w1, ?_, hf⟩
    rw [hise, hnew, failed_any_iff]

theorem failed_map_filter (fails : String → Bool) :
    ∀ (tokens : List String) (responses : List SendResponse),
      responses.map SendResponse.failed = tokens.map fails →
      failedTokens tokens responses = tokens.filter fails ∧
      failureCount responses = (tokens.filter fails).length := by
  intro tokens
  induction tokens with
  | nil =>
    intro responses h
    have : responses = [] := by simpa using h
    subst this
    exact ⟨rfl, rfl⟩
  | cons t ts ih =>
    intro responses h
    cases responses with
    | nil => simp at h
    | cons r rs =>
      simp only [List.map_cons, List.cons.injEq] at h
      obtain ⟨h1, h2⟩ := ih rs h.2
      rw [failedTokens_cons, h.1, h1]
      unfold failureCount at h2 ⊢
      cases hf : fails t
      · simp [List.filter_cons, hf, List.countP_cons, h.1, h2]
      · simp [List.filter_cons, hf, List.countP_cons, h.1, h2]

theorem retryLoop_steady (env : Env) (maxRetry : Int) (fails : String → Bool)
    (hprov : ∀ r msgs, ∃ res, env.SendAll r msgs = .ok res ∧
      res.FailureCount = failureCount res.Responses ∧
      res.Responses.map SendResponse.failed = msgs.map (fun m => fails m.Token)) :
    ∀ (fuel rc : Nat) (req : PushNotification) (w : World),
      TokenRequest req → ClientAvailable env w → req.Tokens.filter fails ≠ [] →
      (rc : Int) ≤ maxRetry → (maxRetry - rc).toNat < fuel →
      ∃ w' c res, retryLoop env maxRetry fuel rc req w = some (.completed true, w') ∧
        w'.rounds = w.rounds + (maxRetry - rc).toNat + 1 ∧
        w'.calls.length = w.calls.length + (maxRetry - rc).toNat + 1 ∧
        w'.calls.getLast? = some c ∧ c.reply = .ok res ∧
        res.FailureCount = (req.Tokens.filter fails).length ∧
        failureCount res.Responses = (req.Tokens.filter fails).length ∧
        w'.StatStorage.AndroidError = w.StatStorage.AndroidError +
          (((maxRetry - rc).toNat + 1 : Nat) : Int) * (req.Tokens.filter fails).length := by
  intro fuel
  induction fuel with
  | zero => intro rc req w _ _ _ _ h; omega
  | succ n ih =>
    intro rc req w hreq hav hF hle hfuel
    obtain ⟨res, hsend, hfc, hmap⟩ := hprov rc (getAndroidNotifications req)
    have hmap' : res.Responses.map SendResponse.failed = req.Tokens.map fails := by
      rw [hmap, ← (tokenRequest_batch hreq).2, List.map_map]; rfl
    have hlen : res.Responses.length = req.Tokens.length := by
      have := congrArg List.length hmap'
      simpa using this
    obtain ⟨hft, hcount⟩ := failed_map_filter fails _ _ hmap'
    obtain ⟨w1, hround, hfold⟩ := sendRound_token_ok hreq hav hsend hlen
    obtain ⟨_, _, hsome, _, herr, hcalls, hrounds, _⟩ := hfold
    have hpos : 0 < failureCount res.Responses := by
      rw [hcount]; exact List.length_pos.2 hF
    unfold retryLoop
    rw [hround]
    simp only [hpos, decide_True, Bool.true_and]
    by_cases hlt : (rc : Int) < maxRetry
    · simp only [hlt, decide_True, if_true]
      have hF' : ({ req with Tokens := failedTokens req.Tokens res.Responses } :
          PushNotification).Tokens.filter fails ≠ [] := by
        show (failedTokens req.Tokens res.Responses).filter fails ≠ []
        rw [hft, List.filter_filter]; simpa using hF
      obtain ⟨w', c, res', hloop, hr', hc', hlast, hrep, hfc', hcount', herr'⟩ :=
        ih (rc + 1) { req with Tokens := failedTokens req.Tokens res.Responses } w1 hreq
          ⟨hav.1, Or.inl hsome⟩ hF' (by push_cast; omega) (by push_cast; omega)
      have hsame : (({ req with Tokens := failedTokens req.Tokens res.Responses } :
          PushNotification).Tokens.filter fails) = req.Tokens.filter fails := by
        show (failedTokens req.Tokens res.Responses).filter fails = _
        rw [hft, List.filter_filter]; simp
      rw [hsame] at hfc' hcount' herr'
      have hstep : (maxRetry - ((rc + 1 : Nat) : Int)).toNat + 1 = (maxRetry - rc).toNat := by
        push_cast; omega
      refine ⟨w', c, res', hloop, ?_, ?_, hlast, hrep, hfc', hcount', ?_⟩
      · rw [hr', hrounds]; omega
      · rw [hc', hcalls]; simp; omega
      · rw [herr', herr, hfc, hcount, ← hstep]; push_cast; ring
    · have heq : (maxRetry - rc).toNat = 0 := by omega
      simp only [hlt, decide_False, if_false, Bool.false_eq_true]
      refine ⟨w1, ProviderCall.mk rc (getAndroidNotifications req) (.ok res), res, rfl, ?_, ?_,
        by rw [hcalls]; simp, rfl, by rw [hfc, hcount], hcount, ?_⟩
      · rw [hrounds, heq]
      · rw [hcalls, heq]; simp
      · rw [herr, hfc, hcount, heq]; simp


/-! ## Properties: the scenarios of the spec -/

theorem envSteady_fails :
    ∀ r msgs, ∃ res, envSteady.SendAll r msgs = .ok res ∧
      res.FailureCount = failureCount res.Responses ∧
      res.Responses.map SendResponse.failed = msgs.map (fun m => (fun t => t == "b") m.Token) := by
  intro r msgs
  refine ⟨_, rfl, rfl, ?_⟩
  simp only [answer, List.map_map]
  apply List.map_congr_left
  intro m _
  by_cases h : m.Token = "b" <;> simp [h, SendResponse.failed, failedResponse, okResponse]

/-- C1: for a valid token request, a retry ceiling `e ≥ 0` and a provider that on
every round fails exactly the tokens in `F` (the request's tokens on which `fails`
holds, at least one) and succeeds on the others, `PushToAndroid` runs `e + 1`
rounds with `e + 1` provider calls and returns `true`, and the failure count of
its last round is `|F|`. -/
theorem PushToAndroid_steady_failures (env : Env) (req : PushNotification) (w : World)
    (fails : String → Bool) (hvalid : env.CheckMessage req = none) (hreq : TokenRequest req)
    (hav : ClientAvailable env w)
    (he : 0 ≤ effectiveMaxRetry env.PushConf.Android.MaxRetry req.Retry)
    (hF : req.Tokens.filter fails ≠ [])
    (hprov : ∀ r msgs, ∃ res, env.SendAll r msgs = .ok res ∧
      res.FailureCount = failureCount res.Responses ∧
      res.Responses.map SendResponse.failed = msgs.map (fun m => fails m.Token)) :
    ∃ w' c res, PushToAndroid env req w = some (.completed true, w') ∧
      w'.rounds = w.rounds +
        (effectiveMaxRetry env.PushConf.Android.MaxRetry req.Retry).toNat + 1 ∧
      w'.calls.length = w.calls.length +
        (effectiveMaxRetry env.PushConf.Android.MaxRetry req.Retry).toNat + 1 ∧
      w'.calls.getLast? = some c ∧ c.reply = .ok res ∧
      res.FailureCount = (req.Tokens.filter fails).length ∧
      failureCount res.Responses = (req.Tokens.filter fails).length := by
  obtain ⟨w', c, res, hloop, hr, hc, hlast, hrep, hfc, hcount, _⟩ :=
    retryLoop_steady env (effectiveMaxRetry env.PushConf.Android.MaxRetry req.Retry) fails hprov
      ((effectiveMaxRetry env.PushConf.Android.MaxRetry req.Retry).toNat + 1) 0 req
      (w.Debug "Start push notification for Android") hreq hav hF (by simpa using he)
      (by simp)
  refine ⟨w', c, res, ?_, ?_, ?_, hlast, hrep, hfc, hcount⟩
  · unfold PushToAndroid
    simp only [hvalid]
    exact hloop
  · simpa using hr
  · simpa using hc

/-- Witness of C1: the token `b` of `a`, `b`, `c` fails on every round, two retries. -/
theorem PushToAndroid_steady_failures_witness :
    envSteady.CheckMessage reqABC = none ∧ TokenRequest reqABC ∧ ClientAvailable envSteady {} ∧
    0 ≤ effectiveMaxRetry envSteady.PushConf.Android.MaxRetry reqABC.Retry ∧
    reqABC.Tokens.filter (fun t => t == "b") ≠ [] ∧
    ∃ w' c res, PushToAndroid envSteady reqABC {} = some (.completed true, w') ∧
      w'.rounds = ({} : World).rounds +
        (effectiveMaxRetry envSteady.PushConf.Android.MaxRetry reqABC.Retry).toNat + 1 ∧
      w'.calls.length = ({} : World).calls.length +
        (effectiveMaxRetry envSteady.PushConf.Android.MaxRetry reqABC.Retry).toNat + 1 ∧
      w'.calls.getLast? = some c ∧ c.reply = .ok res ∧
      res.FailureCount = (reqABC.Tokens.filter (fun t => t == "b")).length ∧
      failureCount res.Responses = (reqABC.Tokens.filter (fun t => t == "b")).length :=
  ⟨rfl, ⟨rfl, rfl⟩, ⟨by decide, Or.inr ⟨⟨1⟩, rfl⟩⟩, by decide, by decide,
    PushToAndroid_steady_failures envSteady reqABC {} (fun t => t == "b") rfl ⟨rfl, rfl⟩
      ⟨by decide, Or.inr ⟨⟨1⟩, rfl⟩⟩ (by decide) (by decide) envSteady_fails⟩

/-- In the setting of C1 the Android failure counter of the statistics, fed on every
round, has grown by `(e + 1) * |F|` when the send returns. -/
theorem PushToAndroid_steady_failures_stats (env : Env) (req : PushNotification) (w : World)
    (fails : String → Bool) (hvalid : env.CheckMessage req = none) (hreq : TokenRequest req)
    (hav : ClientAvailable env w)
    (he : 0 ≤ effectiveMaxRetry env.PushConf.Android.MaxRetry req.Retry)
    (hF : req.Tokens.filter fails ≠ [])
    (hprov : ∀ r msgs, ∃ res, env.SendAll r msgs = .ok res ∧
      res.FailureCount = failureCount res.Responses ∧
      res.Responses.map SendResponse.failed = msgs.map (fun m => fails m.Token)) :
    ∃ w', PushToAndroid env req w = some (.completed true, w') ∧
      w'.StatStorage.AndroidError = w.StatStorage.AndroidError +
        (((effectiveMaxRetry env.PushConf.Android.MaxRetry req.Retry).toNat + 1 : Nat) : Int) *
          (req.Tokens.filter fails).length := by
  obtain ⟨w', c, res, hloop, _, _, _, _, _, _, herr⟩ :=
    retryLoop_steady env (effectiveMaxRetry env.PushConf.Android.MaxRetry req.Retry) fails hprov
      ((effectiveMaxRetry env.PushConf.Android.MaxRetry req.Retry).toNat + 1) 0 req
      (w.Debug "Start push notification for Android") hreq hav hF (by simpa using he)
      (by simp)
  refine ⟨w', ?_, ?_⟩
  · unfold PushToAndroid
    simp only [hvalid]
    exact hloop
  · simpa using herr

/-- C2 (as amended): for a valid token request with `K` tokens and a retry ceiling of
at least 1, when some token fails on round 0 and every token sent on round 1
succeeds, `PushToAndroid` runs exactly two rounds, round 1 is addressed to exactly
the tokens that failed on round 0, the send returns `false`, and the statistics
have gained `K` successes and as many failures as tokens failed on round 0. -/
theorem PushToAndroid_retry_succeeds (env : Env) (req : PushNotification) (w : World)
    (res0 res1 : BatchResponse) (hvalid : env.CheckMessage req = none)
    (hreq : TokenRequest req) (hav : ClientAvailable env w)
    (he : 1 ≤ effectiveMaxRetry env.PushConf.Android.MaxRetry req.Retry)
    (h0 : env.SendAll 0 (getAndroidNotifications req) = .ok res0)
    (hwf0 : WellFormedReply (getAndroidNotifications req) res0)
    (hfail : 0 < failureCount res0.Responses)
    (h1 : env.SendAll 1 (getAndroidNotifications
      { req with Tokens := failedTokens req.Tokens res0.Responses }) = .ok res1)
    (hwf1 : WellFormedReply (getAndroidNotifications
      { req with Tokens := failedTokens req.Tokens res0.Responses }) res1)
    (hok : failureCount res1.Responses = 0) :
    ∃ w', PushToAndroid env req w = some (.completed false, w') ∧
      w'.rounds = w.rounds + 2 ∧
      w'.calls = w.calls ++
        [ProviderCall.mk 0 (getAndroidNotifications req) (.ok res0),
         ProviderCall.mk 1 (getAndroidNotifications
          { req with Tokens := failedTokens req.Tokens res0.Responses }) (.ok res1)] ∧
      (getAndroidNotifications
        { req with Tokens := failedTokens req.Tokens res0.Responses }).map (fun m => m.Token) =
          failedTokens req.Tokens res0.Responses ∧
      w'.StatStorage.AndroidSuccess = w.StatStorage.AndroidSuccess + req.Tokens.length ∧
      w'.StatStorage.AndroidError = w.StatStorage.AndroidError + failureCount res0.Responses := by
  have hreq1 : TokenRequest { req with Tokens := failedTokens req.Tokens res0.Responses } := hreq
  obtain ⟨hlen0, hsc0, hfc0⟩ := hwf0
  obtain ⟨hlen1, hsc1, hfc1⟩ := hwf1
  rw [(tokenRequest_batch hreq).1] at hlen0
  rw [(tokenRequest_batch hreq1).1] at hlen1
  have hlen1' : res1.Responses.length = (failedTokens req.Tokens res0.Responses).length := hlen1
  obtain ⟨w1, hround0, hfold0⟩ :=
    sendRound_token_ok (w := w.Debug "Start push notification for Android") hreq hav h0 hlen0
  obtain ⟨_, _, hsome0, hs0, he0, hcalls0, hrounds0, _⟩ := hfold0
  obtain ⟨w2, hround1, hfold1⟩ :=
    sendRound_token_ok (w := w1) hreq1 ⟨hav.1, Or.inl hsome0⟩ h1 hlen1
  obtain ⟨_, _, _, hs1, he1, hcalls1, hrounds1, _⟩ := hfold1
  obtain ⟨k, hk⟩ : ∃ k, (effectiveMaxRetry env.PushConf.Android.MaxRetry req.Retry).toNat =
      k + 1 := ⟨(effectiveMaxRetry env.PushConf.Android.MaxRetry req.Retry).toNat - 1, by omega⟩
  have hpos : ((0 : Nat) : Int) < effectiveMaxRetry env.PushConf.Android.MaxRetry req.Retry := by
    push_cast; omega
  refine ⟨w2, ?_, ?_, ?_, (tokenRequest_batch hreq1).2, ?_, ?_⟩
  · unfold PushToAndroid
    simp only [hvalid, hk]
    unfold retryLoop
    rw [hround0]
    simp only [hfail, hpos, decide_True, Bool.and_self, if_true]
    unfold retryLoop
    rw [hround1]
    simp [hok]
  · rw [hrounds1, hrounds0]; rfl
  · rw [hcalls1, hcalls0]; simp [World.Debug]
  · have hsf0 := success_add_failure res0.Responses
    have hsf1 := success_add_failure res1.Responses
    have hfl := failedTokens_length req.Tokens res0.Responses (le_of_eq hlen0)
    rw [hs1, hs0, hsc0, hsc1]
    simp only [World.Debug]
    have e1 : (successCount res1.Responses : Int) = failureCount res0.Responses := by
      have : successCount res1.Responses = failureCount res0.Responses := by omega
      rw [this]
    have e2 : (successCount res0.Responses : Int) + failureCount res0.Responses =
        req.Tokens.length := by rw [← hlen0, ← hsf0]; push_cast; rfl
    omega
  · rw [he1, he0, hfc0, hfc1, hok]
    simp [World.Debug]

/-- Witness of C2 (as amended): the spec's instance, tokens `a`, `b`, `c`, `b` failing
on round 0 and succeeding on round 1, a ceiling of two retries. -/
theorem PushToAndroid_retry_succeeds_witness :
    envABC.CheckMessage reqABC = none ∧ TokenRequest reqABC ∧ ClientAvailable envABC {} ∧
    1 ≤ effectiveMaxRetry envABC.PushConf.Android.MaxRetry reqABC.Retry ∧
    envABC.SendAll 0 (getAndroidNotifications reqABC) = .ok replyABC0 ∧
    0 < failureCount replyABC0.Responses ∧
    envABC.SendAll 1 (getAndroidNotifications
      { reqABC with Tokens := failedTokens reqABC.Tokens replyABC0.Responses }) = .ok replyABC1 ∧
    failureCount replyABC1.Responses = 0 ∧
    ∃ w', PushToAndroid envABC reqABC {} = some (.completed false, w') ∧
      w'.rounds = ({} : World).rounds + 2 ∧
      w'.calls = ({} : World).calls ++
        [ProviderCall.mk 0 (getAndroidNotifications reqABC) (.ok replyABC0),
         ProviderCall.mk 1 (getAndroidNotifications
          { reqABC with Tokens := failedTokens reqABC.Tokens replyABC0.Responses })
          (.ok replyABC1)] ∧
      (getAndroidNotifications
        { reqABC with Tokens := failedTokens reqABC.Tokens replyABC0.Responses }).map
          (fun m => m.Token) = failedTokens reqABC.Tokens replyABC0.Responses ∧
      w'.StatStorage.AndroidSuccess = ({} : World).StatStorage.AndroidSuccess +
        reqABC.Tokens.length ∧
      w'.StatStorage.AndroidError = ({} : World).StatStorage.AndroidError +
        failureCount replyABC0.Responses :=
  ⟨rfl, ⟨rfl, rfl⟩, ⟨by decide, Or.inr ⟨⟨1⟩, rfl⟩⟩, by decide, rfl, by decide, rfl, by decide,
    PushToAndroid_retry_succeeds envABC reqABC {} replyABC0 replyABC1 rfl ⟨rfl, rfl⟩
      ⟨by decide, Or.inr ⟨⟨1⟩, rfl⟩⟩ (by decide) rfl (answer_wellFormed _ _) (by decide) rfl
      (answer_wellFormed _ _) (by decide)⟩

/-- Counterexample to C2 as stated: on the spec's instance (tokens `a`, `b`, `c`, `b`
failing on round 0 and succeeding on round 1, two retries) the send runs two rounds
and returns `false`, and the statistics show 3 successes and 1 failure, not 0. -/
theorem PushToAndroid_abc_failure_counter :
    (PushToAndroid envABC reqABC {}).map
        (fun r => (r.1, r.2.rounds, r.2.StatStorage.AndroidSuccess, r.2.StatStorage.AndroidError)) =
      some (.completed false, 2, 3, 1) ∧
    (finalWorld envABC reqABC {}).StatStorage.AndroidError ≠ 0 := by
  decide

/-- Witness of C5: the three messages of the request to `a`, `b`, `c`. -/
theorem getAndroidNotifications_addressing_witness :
    reqABC.Topic = "" ∧ reqABC.Condition = "" ∧
    (getAndroidNotifications reqABC).length = reqABC.Tokens.length ∧
    (getAndroidNotifications reqABC).map (fun m => m.Token) = reqABC.Tokens ∧
    ∀ i (h : i < reqABC.Tokens.length),
      ((getAndroidNotifications reqABC).get? i).map (fun m => m.Token) =
        some (reqABC.Tokens.get ⟨i, h⟩) :=
  ⟨rfl, rfl, (getAndroidNotifications_addressing reqABC).2.2 rfl rfl⟩

/-- Witness of C6 on the spec's scenario: 3 tokens, 3 successes over two rounds. -/
theorem PushToAndroid_success_total_witness :
    TokenRequest reqABC ∧
    PushToAndroid envABC reqABC {} = some (.completed false, finalWorld envABC reqABC {}) ∧
    ∃ c res, (finalWorld envABC reqABC {}).calls.getLast? = some c ∧ c.reply = .ok res ∧
      ((finalWorld envABC reqABC {}).StatStorage.AndroidSuccess -
          ({} : World).StatStorage.AndroidSuccess) +
        failureCount res.Responses = reqABC.Tokens.length ∧
      0 ≤ (finalWorld envABC reqABC {}).StatStorage.AndroidSuccess -
        ({} : World).StatStorage.AndroidSuccess ∧
      (finalWorld envABC reqABC {}).StatStorage.AndroidSuccess -
        ({} : World).StatStorage.AndroidSuccess ≤ reqABC.Tokens.length ∧
      false = decide (0 < failureCount res.Responses) ∧
      ((finalWorld envABC reqABC {}).rounds = ({} : World).rounds + 1 →
        (finalWorld envABC reqABC {}).StatStorage.AndroidSuccess =
          ({} : World).StatStorage.AndroidSuccess + successCount res.Responses ∧
        (finalWorld envABC reqABC {}).StatStorage.AndroidError =
          ({} : World).StatStorage.AndroidError + failureCount res.Responses) :=
  ⟨⟨rfl, rfl⟩, by decide,
    PushToAndroid_success_total envABC reqABC {} false _ ⟨rfl, rfl⟩ envABC_wellFormed
      (by decide)⟩

/-- A rejected request: the provider is not called, the only entries are the start
message and one error entry. -/
theorem PushToAndroid_invalid_request :
    PushToAndroid envRejecting reqABC {} =
      some (.invalid,
        { log := [Event.accessDebug "Start push notification for Android",
                  Event.errorError "request error: no target"] }) := by
  decide

/-- Counterexample to C9 as stated: the payload key `title` does not carry the
rendering of its payload value `promo` but the request's title. -/
theorem getAndroidNotification_title_overwritten :
    reqTitleInData.Data.get "title" = some (Value.str "promo") ∧
    (getAndroidNotification reqTitleInData).Data.get "title" = some "Hello" ∧
    (getAndroidNotification reqTitleInData).Data.get "title" ≠
      some (Sprintf_v (Value.str "promo")) := by
  decide

/-- Witness of C9 (as amended): the payload key `badge` with the integer 3, next to
a payload entry under `title`. -/
theorem getAndroidNotification_data_witness :
    reqTitleInData.Data.get "badge" = some (Value.int 3) ∧ "badge" ≠ "title" ∧
    "badge" ≠ "body" ∧
    (getAndroidNotification reqTitleInData).Data.get "badge" = some (Sprintf_v (Value.int 3)) ∧
    (getAndroidNotification reqTitleInData).Data.get "title" = some reqTitleInData.Title ∧
    (getAndroidNotification reqTitleInData).Data.get "body" = some reqTitleInData.Message :=
  ⟨by decide, by decide, by decide,
    (getAndroidNotification_data reqTitleInData).1 "badge" (Value.int 3) (by decide) (by decide)
      (by decide),
    (getAndroidNotification_data reqTitleInData).2⟩

end Gorush
